import Mathlib

/-!
Verification of the in-memory graph arena of this repository
(`src/lib/graph-state.ts`) and its command-based undo layer
(`src/lib/editor-state` module: `CommandHistory` and the concrete
commands).

The embedding is a direct transcription of the TypeScript source:

* A JS typed array (`Float32Array` / `Uint32Array`) is modelled by `JArr`:
  a fixed length plus a total content function.  As in JS, an
  out-of-range write is silently dropped.  An out-of-range read yields
  `undefined` in JS; here it yields the default `0` — the only place this
  distinction is observable is the degenerate capacity-0 arena, where the
  claims compare the read against a nonzero number, so the modelling is
  conservative.
* Node coordinates are modelled as exact integers (`Int`).  The claims
  under verification only involve integral coordinates, which `Float32`
  represents exactly at the relevant magnitudes.
* Each arena method becomes a function `GraphState → … → GraphState × α`
  returning the updated state and the JS return value.  Loops become
  structural recursions over the loop counter; the breadth-first search
  of `computeConnectedComponents`, whose `while` loop is not structurally
  recursive, takes explicit fuel chosen larger than the total number of
  queue insertions the JS loop can perform.
-/

/-- Model of a JS typed array: fixed length, total content function. -/
structure JArr (α : Type) where
  size : Nat
  data : Nat → α

namespace JArr

/-- `a[i]` — in-range read returns the stored value; an out-of-range read
is modelled by the default `d` (JS yields `undefined`). -/
def get {α : Type} (a : JArr α) (i : Nat) (d : α) : α :=
  if i < a.size then a.data i else d

/-- `a[i] = v` — JS typed arrays silently drop out-of-range writes. -/
def set {α : Type} (a : JArr α) (i : Nat) (v : α) : JArr α :=
  if i < a.size then ⟨a.size, Function.update a.data i v⟩ else a

/-- `new Float32Array(n)` / `new Uint32Array(n)`: zero-initialised. -/
def make {α : Type} (n : Nat) (v : α) : JArr α :=
  ⟨n, fun _ => v⟩

/-- `const b = new …Array(newSize); b.set(a); return b` — the
allocate-and-copy idiom of the resize methods. -/
def grow {α : Type} (a : JArr α) (d : α) (newSize : Nat) : JArr α :=
  ⟨newSize, fun i => a.get i d⟩

end JArr

/-- `interface NodeData { x, y }` from `graph-state.ts`. -/
structure NodeData where
  x : Int
  y : Int
deriving DecidableEq

/-- `interface EdgeData { source, target }` from `graph-state.ts`. -/
structure EdgeData where
  source : Nat
  target : Nat
deriving DecidableEq

/-- The fields of `class GraphState` (structure-of-arrays arena). -/
structure GraphState where
  nodeCount : Nat
  nodeCapacity : Nat
  nodeX : JArr Int
  nodeY : JArr Int
  nodeVX : JArr Int
  nodeVY : JArr Int
  edgeCount : Nat
  edgeCapacity : Nat
  edgeSource : JArr Nat
  edgeTarget : JArr Nat
  version : Nat

namespace GraphState

/-- The `GraphState` constructor. -/
def mkGraphState (initialNodeCapacity initialEdgeCapacity : Nat) : GraphState :=
  { nodeCount := 0
    nodeCapacity := initialNodeCapacity
    nodeX := JArr.make initialNodeCapacity 0
    nodeY := JArr.make initialNodeCapacity 0
    nodeVX := JArr.make initialNodeCapacity 0
    nodeVY := JArr.make initialNodeCapacity 0
    edgeCount := 0
    edgeCapacity := initialEdgeCapacity
    edgeSource := JArr.make initialEdgeCapacity 0
    edgeTarget := JArr.make initialEdgeCapacity 0
    version := 0 }

/-- `resizeNodes(newCapacity)`. -/
def resizeNodes (g : GraphState) (newCapacity : Nat) : GraphState :=
  { g with
    nodeX := g.nodeX.grow 0 newCapacity
    nodeY := g.nodeY.grow 0 newCapacity
    nodeVX := g.nodeVX.grow 0 newCapacity
    nodeVY := g.nodeVY.grow 0 newCapacity
    nodeCapacity := newCapacity }

/-- `resizeEdges(newCapacity)`. -/
def resizeEdges (g : GraphState) (newCapacity : Nat) : GraphState :=
  { g with
    edgeSource := g.edgeSource.grow 0 newCapacity
    edgeTarget := g.edgeTarget.grow 0 newCapacity
    edgeCapacity := newCapacity }

/-- `addNode(x, y)`; returns the new state and the returned index. -/
def addNode (g : GraphState) (x y : Int) : GraphState × Nat :=
  let g1 := if g.nodeCapacity ≤ g.nodeCount then g.resizeNodes (g.nodeCapacity * 2) else g
  let idx := g1.nodeCount
  ({ g1 with
      nodeX := g1.nodeX.set idx x
      nodeY := g1.nodeY.set idx y
      nodeVX := g1.nodeVX.set idx 0
      nodeVY := g1.nodeVY.set idx 0
      nodeCount := g1.nodeCount + 1
      version := g1.version + 1 }, idx)

/-- `removeEdge(edgeIdx)`. -/
def removeEdge (g : GraphState) (edgeIdx : Int) : GraphState × Bool :=
  if edgeIdx < 0 ∨ (g.edgeCount : Int) ≤ edgeIdx then (g, false)
  else
    let i := edgeIdx.toNat
    let lastIdx := g.edgeCount - 1
    let g1 :=
      if i ≠ lastIdx then
        { g with
          edgeSource := g.edgeSource.set i (g.edgeSource.get lastIdx 0)
          edgeTarget := g.edgeTarget.set i (g.edgeTarget.get lastIdx 0) }
      else g
    ({ g1 with edgeCount := g1.edgeCount - 1, version := g1.version + 1 }, true)

/-- Body of the descending loop of `removeEdgesForNode`: fuel `i + 1`
means the loop variable currently equals `i`. -/
def removeEdgesForNodeLoop (nodeIdx : Nat) : Nat → GraphState → GraphState
  | 0, g => g
  | i + 1, g =>
    let g1 :=
      if g.edgeSource.get i 0 = nodeIdx ∨ g.edgeTarget.get i 0 = nodeIdx then
        (g.removeEdge (i : Int)).1
      else g
    removeEdgesForNodeLoop nodeIdx i g1

/-- `removeEdgesForNode(nodeIdx)` — removes incident edges scanning from
the end. -/
def removeEdgesForNode (g : GraphState) (nodeIdx : Nat) : GraphState :=
  removeEdgesForNodeLoop nodeIdx g.edgeCount g

/-- Body of the ascending loop of `remapNodeIndex`: fuel `k` means the
indices `0 … k-1` have been processed. -/
def remapLoop (oldIdx newIdx : Nat) : Nat → GraphState → GraphState
  | 0, g => g
  | k + 1, g =>
    let g1 := remapLoop oldIdx newIdx k g
    let g2 :=
      if g1.edgeSource.get k 0 = oldIdx then
        { g1 with edgeSource := g1.edgeSource.set k newIdx }
      else g1
    if g2.edgeTarget.get k 0 = oldIdx then
      { g2 with edgeTarget := g2.edgeTarget.set k newIdx }
    else g2

/-- `remapNodeIndex(oldIdx, newIdx)`. -/
def remapNodeIndex (g : GraphState) (oldIdx newIdx : Nat) : GraphState :=
  remapLoop oldIdx newIdx g.edgeCount g

/-- `removeNode(nodeIdx)`: cascade edge removal, compaction of the last
node into the freed slot, and edge-endpoint remapping. -/
def removeNode (g : GraphState) (nodeIdx : Int) : GraphState × Bool :=
  if nodeIdx < 0 ∨ (g.nodeCount : Int) ≤ nodeIdx then (g, false)
  else
    let n := nodeIdx.toNat
    let g1 := g.removeEdgesForNode n
    let lastIdx := g1.nodeCount - 1
    let g2 :=
      if n ≠ lastIdx then
        let gm :=
          { g1 with
            nodeX := g1.nodeX.set n (g1.nodeX.get lastIdx 0)
            nodeY := g1.nodeY.set n (g1.nodeY.get lastIdx 0)
            nodeVX := g1.nodeVX.set n (g1.nodeVX.get lastIdx 0)
            nodeVY := g1.nodeVY.set n (g1.nodeVY.get lastIdx 0) }
        gm.remapNodeIndex lastIdx n
      else g1
    ({ g2 with nodeCount := g2.nodeCount - 1, version := g2.version + 1 }, true)

/-- `updateNode(nodeIdx, x, y)`. -/
def updateNode (g : GraphState) (nodeIdx : Int) (x y : Int) : GraphState × Bool :=
  if nodeIdx < 0 ∨ (g.nodeCount : Int) ≤ nodeIdx then (g, false)
  else
    ({ g with
        nodeX := g.nodeX.set nodeIdx.toNat x
        nodeY := g.nodeY.set nodeIdx.toNat y
        version := g.version + 1 }, true)

/-- `getNode(nodeIdx)`. -/
def getNode (g : GraphState) (nodeIdx : Int) : Option NodeData :=
  if nodeIdx < 0 ∨ (g.nodeCount : Int) ≤ nodeIdx then none
  else some ⟨g.nodeX.get nodeIdx.toNat 0, g.nodeY.get nodeIdx.toNat 0⟩

/-- `getEdge(edgeIdx)`. -/
def getEdge (g : GraphState) (edgeIdx : Int) : Option EdgeData :=
  if edgeIdx < 0 ∨ (g.edgeCount : Int) ≤ edgeIdx then none
  else some ⟨g.edgeSource.get edgeIdx.toNat 0, g.edgeTarget.get edgeIdx.toNat 0⟩

/-- Scan of `hasEdge`, checking both orientations of the pair.  The JS
loop scans ascending with early exit; the value computed (whether any
stored edge matches) is identical. -/
def hasEdgeLoop (g : GraphState) (source target : Int) : Nat → Bool
  | 0 => false
  | i + 1 =>
    if ((g.edgeSource.get i 0 : Int) = source ∧ (g.edgeTarget.get i 0 : Int) = target) ∨
       ((g.edgeSource.get i 0 : Int) = target ∧ (g.edgeTarget.get i 0 : Int) = source) then
      true
    else hasEdgeLoop g source target i

/-- `hasEdge(source, target)`. -/
def hasEdge (g : GraphState) (source target : Int) : Bool :=
  hasEdgeLoop g source target g.edgeCount

/-- `addEdge(source, target)`; returns the new state and the returned
index (`-1` on rejection). -/
def addEdge (g : GraphState) (source target : Int) : GraphState × Int :=
  if source < 0 ∨ (g.nodeCount : Int) ≤ source then (g, -1)
  else if target < 0 ∨ (g.nodeCount : Int) ≤ target then (g, -1)
  else if source = target then (g, -1)
  else if g.hasEdge source target then (g, -1)
  else
    let g1 := if g.edgeCapacity ≤ g.edgeCount then g.resizeEdges (g.edgeCapacity * 2) else g
    let idx := g1.edgeCount
    ({ g1 with
        edgeSource := g1.edgeSource.set idx source.toNat
        edgeTarget := g1.edgeTarget.set idx target.toNat
        edgeCount := g1.edgeCount + 1
        version := g1.version + 1 }, (idx : Int))

/-- Squared distance from the query point `(x, y)` to node `i`
(`dx*dx + dy*dy` in `findNearestNode`). -/
def nodeDistSq (g : GraphState) (x y : Int) (i : Nat) : Int :=
  (g.nodeX.get i 0 - x) * (g.nodeX.get i 0 - x) +
    (g.nodeY.get i 0 - y) * (g.nodeY.get i 0 - y)

/-- `distSq < nearestDistSq` where `nearestDistSq` may be `Infinity`
(modelled by `none`). -/
def fnnLt (d : Int) : Option Int → Bool
  | none => true
  | some b => d < b

/-- Ascending scan of `findNearestNode`: fuel `k` means the indices
`0 … k-1` have been processed; the accumulator is
`(nearestIdx, nearestDistSq)`. -/
def fnnLoop (g : GraphState) (x y : Int) : Nat → Int × Option Int → Int × Option Int
  | 0, acc => acc
  | k + 1, acc0 =>
    let acc := fnnLoop g x y k acc0
    if fnnLt (g.nodeDistSq x y k) acc.2 then ((k : Int), some (g.nodeDistSq x y k)) else acc

/-- `findNearestNode(x, y, maxDist)`; `maxDist = none` is the default
`Infinity`. -/
def findNearestNode (g : GraphState) (x y : Int) (maxDist : Option Int) : Int :=
  (fnnLoop g x y g.nodeCount (-1, maxDist.map fun m => m * m)).1

/-- Ascending loop of `buildAdjacencyList`, appending each endpoint to the
other endpoint's neighbour list.  The JS adjacency is an array of length
`nodeCount`; on the well-formed states it is used with, every endpoint is
`< nodeCount`, so the total-function model is exact there. -/
def buildAdjacencyLoop (g : GraphState) : Nat → (Nat → List Nat) → Nat → List Nat
  | 0, adj => adj
  | i + 1, adj0 =>
    let adj := buildAdjacencyLoop g i adj0
    let src := g.edgeSource.get i 0
    let tgt := g.edgeTarget.get i 0
    let adj1 := Function.update adj src (adj src ++ [tgt])
    Function.update adj1 tgt (adj1 tgt ++ [src])

/-- `buildAdjacencyList()`. -/
def buildAdjacencyList (g : GraphState) : Nat → List Nat :=
  buildAdjacencyLoop g g.edgeCount (fun _ => [])

/-- The `while (queue.length > 0)` BFS of `computeConnectedComponents`.
`ids` is the `componentIds` array (a total function; entries start at
`-1`), `comp` the current component id, `size` the running size counter.
The fuel only bounds the number of iterations; it is chosen by the caller
above the total number of queue insertions the loop can perform, so the
JS loop always terminates within it. -/
def bfsLoop (adj : Nat → List Nat) (comp : Int) :
    Nat → List Nat → (Nat → Int) → Nat → (Nat → Int) × Nat
  | 0, _, ids, size => (ids, size)
  | _ + 1, [], ids, size => (ids, size)
  | fuel + 1, node :: rest, ids, size =>
    if ids node ≠ -1 then bfsLoop adj comp fuel rest ids size
    else
      let ids1 := Function.update ids node comp
      let push := (adj node).filter fun nb => decide (ids1 nb = -1)
      bfsLoop adj comp fuel (rest ++ push) ids1 (size + 1)

/-- Result record of `computeConnectedComponents`. -/
structure ComponentsResult where
  componentIds : Nat → Int
  componentSizes : List Nat
  numComponents : Nat

/-- Outer ascending loop of `computeConnectedComponents` over the start
nodes. -/
def cccLoop (adj : Nat → List Nat) (fuel : Nat) :
    List Nat → (Nat → Int) → Nat → List Nat → (Nat → Int) × List Nat × Nat
  | [], ids, cur, sizes => (ids, sizes, cur)
  | s :: rest, ids, cur, sizes =>
    if ids s ≠ -1 then cccLoop adj fuel rest ids cur sizes
    else
      let r := bfsLoop adj (cur : Int) fuel [s] ids 0
      cccLoop adj fuel rest r.1 (cur + 1) (sizes ++ [r.2])

/-- `computeConnectedComponents()`. -/
def computeConnectedComponents (g : GraphState) : ComponentsResult :=
  let adj := g.buildAdjacencyList
  let fuel := g.nodeCount + 2 * g.edgeCount + 1
  let r := cccLoop adj fuel (List.range g.nodeCount) (fun _ => -1) 0 []
  ⟨r.1, r.2.1, r.2.2⟩

/-- Result record of `findGiantComponent`. -/
structure GiantResult where
  componentIds : Nat → Int
  giantComponentId : Nat
  giantComponentSize : Nat
  componentSizes : List Nat
  numComponents : Nat

/-- The giant-selection loop of `findGiantComponent`: running index `i`,
current best `(giantId, giantSize)`, updated on strict improvement. -/
def sgLoop : List Nat → Nat → Nat → Nat → Nat × Nat
  | [], _, gid, gsz => (gid, gsz)
  | s :: rest, i, gid, gsz =>
    if gsz < s then sgLoop rest (i + 1) i s else sgLoop rest (i + 1) gid gsz

/-- `findGiantComponent()`. -/
def findGiantComponent (g : GraphState) : GiantResult :=
  let r := g.computeConnectedComponents
  let sel := sgLoop r.componentSizes 0 0 0
  ⟨r.componentIds, sel.1, sel.2, r.componentSizes, r.numComponents⟩

/-- Result record of `computeStatistics`.  The two ratio fields are exact
rationals; the JS division-by-`nodeCount` is guarded by the same
`nodeCount > 0` test as in the source. -/
structure Statistics where
  nodeCount : Nat
  edgeCount : Nat
  numComponents : Nat
  giantComponentSize : Nat
  giantComponentPercent : ℚ
  avgDegree : ℚ
  isolatedNodes : Nat
deriving DecidableEq

/-- Degree-counting pass of `computeStatistics`: `degrees` is a
`Uint32Array(nodeCount)`, so increments at an out-of-range endpoint are
dropped, as in JS. -/
def degreesLoop (g : GraphState) : Nat → JArr Nat → JArr Nat
  | 0, d => d
  | i + 1, d0 =>
    let d := degreesLoop g i d0
    let d1 := d.set (g.edgeSource.get i 0) (d.get (g.edgeSource.get i 0) 0 + 1)
    d1.set (g.edgeTarget.get i 0) (d1.get (g.edgeTarget.get i 0) 0 + 1)

/-- Isolated-node / total-degree pass of `computeStatistics`; returns
`(isolatedNodes, totalDegree)`. -/
def isoTotalLoop (degrees : JArr Nat) : Nat → Nat × Nat
  | 0 => (0, 0)
  | i + 1 =>
    let p := isoTotalLoop degrees i
    (if degrees.get i 0 = 0 then p.1 + 1 else p.1, p.2 + degrees.get i 0)

/-- `computeStatistics()`. -/
def computeStatistics (g : GraphState) : Statistics :=
  let r := g.findGiantComponent
  let degrees := degreesLoop g g.edgeCount (JArr.make g.nodeCount 0)
  let p := isoTotalLoop degrees g.nodeCount
  { nodeCount := g.nodeCount
    edgeCount := g.edgeCount
    numComponents := r.numComponents
    giantComponentSize := r.giantComponentSize
    giantComponentPercent :=
      if 0 < g.nodeCount then ((r.giantComponentSize : ℚ) / (g.nodeCount : ℚ)) * 100 else 0
    avgDegree := if 0 < g.nodeCount then (p.2 : ℚ) / (g.nodeCount : ℚ) else 0
    isolatedNodes := p.1 }

/-- Node-writing loop of `loadFromArrow`. -/
def loadNodesLoop (xs : List (Int × Int)) : Nat → GraphState → GraphState
  | 0, g => g
  | i + 1, g0 =>
    let g := loadNodesLoop xs i g0
    let p := xs.getD i (0, 0)
    { g with
      nodeX := g.nodeX.set i p.1
      nodeY := g.nodeY.set i p.2
      nodeVX := g.nodeVX.set i 0
      nodeVY := g.nodeVY.set i 0 }

/-- Edge-writing loop of `loadFromArrow`. -/
def loadEdgesLoop (es : List (Nat × Nat)) : Nat → GraphState → GraphState
  | 0, g => g
  | i + 1, g0 =>
    let g := loadEdgesLoop es i g0
    let p := es.getD i (0, 0)
    { g with
      edgeSource := g.edgeSource.set i p.1
      edgeTarget := g.edgeTarget.set i p.2 }

/-- `loadFromArrow(nodes, edges)`: the Arrow tables are modelled by the
column data they deliver (`x_offset`/`y_offset` pairs and
`source_idx`/`target_idx` pairs). -/
def loadFromArrow (g0 : GraphState) (nodes : List (Int × Int)) (edges : List (Nat × Nat)) :
    GraphState :=
  let g := { g0 with nodeCount := 0, edgeCount := 0 }
  let numNodes := nodes.length
  let g := if g.nodeCapacity < numNodes then g.resizeNodes (max numNodes (g.nodeCapacity * 2)) else g
  let g := loadNodesLoop nodes numNodes g
  let g := { g with nodeCount := numNodes }
  let numEdges := edges.length
  let g := if g.edgeCapacity < numEdges then g.resizeEdges (max numEdges (g.edgeCapacity * 2)) else g
  let g := loadEdgesLoop edges numEdges g
  { g with edgeCount := numEdges, version := g.version + 1 }

/-- The list of stored `(source, target)` pairs, `edgePairs g = the first
`edgeCount` entries of the parallel endpoint arrays`.  This is the view
the specification's edge invariants quantify over. -/
def edgePairs (g : GraphState) : List (Nat × Nat) :=
  (List.range g.edgeCount).map fun i => (g.edgeSource.get i 0, g.edgeTarget.get i 0)

/-- Two stored edges represent the same unordered endpoint pair. -/
def samePair (e f : Nat × Nat) : Prop :=
  (e.1 = f.1 ∧ e.2 = f.2) ∨ (e.1 = f.2 ∧ e.2 = f.1)

instance : DecidablePred fun p : (Nat × Nat) × Nat × Nat => samePair p.1 p.2 := by
  intro p; unfold samePair; infer_instance

instance (e f : Nat × Nat) : Decidable (samePair e f) := by
  unfold samePair; infer_instance

/-- An edge is incident to node `n`. -/
def incidentTo (n : Nat) (e : Nat × Nat) : Prop := e.1 = n ∨ e.2 = n

instance (n : Nat) (e : Nat × Nat) : Decidable (incidentTo n e) := by
  unfold incidentTo; infer_instance

/-- The endpoint rewrite performed by `remapNodeIndex`: `oldIdx` becomes
`newIdx`, everything else is unchanged. -/
def remapVal (oldIdx newIdx v : Nat) : Nat :=
  if v = oldIdx then newIdx else v

/-- All node-side fields of `g'` agree with those of `g` (frame predicate
for the edge-only operations). -/
def NodeFieldsEq (g g' : GraphState) : Prop :=
  g'.nodeX = g.nodeX ∧ g'.nodeY = g.nodeY ∧ g'.nodeVX = g.nodeVX ∧ g'.nodeVY = g.nodeVY ∧
  g'.nodeCount = g.nodeCount ∧ g'.nodeCapacity = g.nodeCapacity

/-- The edge-array allocation of `g'` agrees with that of `g`. -/
def EdgeSizesEq (g g' : GraphState) : Prop :=
  g'.edgeSource.size = g.edgeSource.size ∧ g'.edgeTarget.size = g.edgeTarget.size ∧
  g'.edgeCapacity = g.edgeCapacity

/-- The edge invariant of the specification (§3, claim C1), stated over
the stored indices: no self-loops, endpoints in `[0, nodeCount)`, and
pairwise-distinct unordered endpoint pairs. -/
def EdgeInvariant (g : GraphState) : Prop :=
  (∀ i, i < g.edgeCount →
    g.edgeSource.get i 0 ≠ g.edgeTarget.get i 0 ∧
    g.edgeSource.get i 0 < g.nodeCount ∧ g.edgeTarget.get i 0 < g.nodeCount) ∧
  ∀ i j, i < j → j < g.edgeCount →
    ¬ samePair (g.edgeSource.get i 0, g.edgeTarget.get i 0)
        (g.edgeSource.get j 0, g.edgeTarget.get j 0)

/-- Bookkeeping well-formedness of the arena: the parallel arrays have
exactly the capacity as length (as allocated by the constructor and the
resize methods), the live counts fit the capacities, and the capacities
are positive (the constructor defaults are `100000`/`300000`, and every
construction in the repository uses positive capacities). -/
def SizeInvariant (g : GraphState) : Prop :=
  g.nodeX.size = g.nodeCapacity ∧ g.nodeY.size = g.nodeCapacity ∧
  g.nodeVX.size = g.nodeCapacity ∧ g.nodeVY.size = g.nodeCapacity ∧
  g.edgeSource.size = g.edgeCapacity ∧ g.edgeTarget.size = g.edgeCapacity ∧
  g.nodeCount ≤ g.nodeCapacity ∧ g.edgeCount ≤ g.edgeCapacity ∧
  0 < g.nodeCapacity ∧ 0 < g.edgeCapacity

/-- Full arena invariant. -/
def ArenaWf (g : GraphState) : Prop :=
  SizeInvariant g ∧ EdgeInvariant g

/-- The states reachable from a freshly constructed arena by the five
mutating arena operations named in claim C1. -/
inductive ReachableArena : GraphState → Prop where
  | init (ncap ecap : Nat) (hn : 0 < ncap) (he : 0 < ecap) :
      ReachableArena (mkGraphState ncap ecap)
  | addNode (g : GraphState) (x y : Int) :
      ReachableArena g → ReachableArena (g.addNode x y).1
  | removeNode (g : GraphState) (i : Int) :
      ReachableArena g → ReachableArena (g.removeNode i).1
  | updateNode (g : GraphState) (i : Int) (x y : Int) :
      ReachableArena g → ReachableArena (g.updateNode i x y).1
  | addEdge (g : GraphState) (s t : Int) :
      ReachableArena g → ReachableArena (g.addEdge s t).1
  | removeEdge (g : GraphState) (i : Int) :
      ReachableArena g → ReachableArena (g.removeEdge i).1

/-- One application of any of the mutating operations of §4.1 plus the
bulk loader — the step relation used for the version-monotonicity claim. -/
inductive ArenaStep : GraphState → GraphState → Prop where
  | addNode (g : GraphState) (x y : Int) : ArenaStep g (g.addNode x y).1
  | removeNode (g : GraphState) (i : Int) : ArenaStep g (g.removeNode i).1
  | updateNode (g : GraphState) (i : Int) (x y : Int) : ArenaStep g (g.updateNode i x y).1
  | addEdge (g : GraphState) (s t : Int) : ArenaStep g (g.addEdge s t).1
  | removeEdge (g : GraphState) (i : Int) : ArenaStep g (g.removeEdge i).1
  | loadFromArrow (g : GraphState) (nodes : List (Int × Int)) (edges : List (Nat × Nat)) :
      ArenaStep g (g.loadFromArrow nodes edges)

end GraphState

/-!
The command layer (`editor-state` module): the mutable private fields of
each command class become record fields, and `execute`/`undo` thread both
the command record and the graph.  The TS commands hold a reference to
the graph; here the graph is passed explicitly.
-/

/-- `AddNodeCommand` — captured coordinates and the recorded index
(`-1` before execution). -/
structure AddNodeCmd where
  x : Int
  y : Int
  nodeIdx : Int

/-- The `AddNodeCommand` constructor (`nodeIdx` starts at `-1`). -/
def mkAddNodeCmd (x y : Int) : AddNodeCmd := ⟨x, y, -1⟩

/-- `AddNodeCommand.execute()`. -/
def AddNodeCmd.exec (c : AddNodeCmd) (g : GraphState) : AddNodeCmd × GraphState :=
  let r := g.addNode c.x c.y
  ({ c with nodeIdx := (r.2 : Int) }, r.1)

/-- `AddNodeCommand.undo()`. -/
def AddNodeCmd.undoCmd (c : AddNodeCmd) (g : GraphState) : AddNodeCmd × GraphState :=
  if 0 ≤ c.nodeIdx then ({ c with nodeIdx := -1 }, (g.removeNode c.nodeIdx).1)
  else (c, g)

/-- `RemoveNodeCommand` — the target index plus the captured position and
incident-edge endpoint pairs. -/
structure RemoveNodeCmd where
  nodeIdx : Int
  savedX : Int
  savedY : Int
  savedEdges : List (Nat × Nat)

/-- The `RemoveNodeCommand` constructor. -/
def mkRemoveNodeCmd (nodeIdx : Int) : RemoveNodeCmd := ⟨nodeIdx, 0, 0, []⟩

/-- `RemoveNodeCommand.execute()`: captures the node position and every
currently incident edge, then removes the node. -/
def RemoveNodeCmd.exec (c : RemoveNodeCmd) (g : GraphState) : RemoveNodeCmd × GraphState :=
  let saved :=
    ((List.range g.edgeCount).filter fun i =>
        decide ((g.edgeSource.get i 0 : Int) = c.nodeIdx ∨
          (g.edgeTarget.get i 0 : Int) = c.nodeIdx)).map
      fun i => (g.edgeSource.get i 0, g.edgeTarget.get i 0)
  let c1 :=
    { c with
      savedX := g.nodeX.get c.nodeIdx.toNat 0
      savedY := g.nodeY.get c.nodeIdx.toNat 0
      savedEdges := saved }
  (c1, (g.removeNode c.nodeIdx).1)

/-- `RemoveNodeCommand.undo()`: re-adds the node at a fresh index and
re-adds each captured edge, substituting the fresh index for the removed
one. -/
def RemoveNodeCmd.undoCmd (c : RemoveNodeCmd) (g : GraphState) : RemoveNodeCmd × GraphState :=
  let r := g.addNode c.savedX c.savedY
  let newIdx : Int := (r.2 : Int)
  let g2 := c.savedEdges.foldl
    (fun gc e =>
      let src : Int := if (e.1 : Int) = c.nodeIdx then newIdx else (e.1 : Int)
      let tgt : Int := if (e.2 : Int) = c.nodeIdx then newIdx else (e.2 : Int)
      (gc.addEdge src tgt).1)
    r.1
  (c, g2)

/-- `RemoveEdgeCommand`. -/
structure RemoveEdgeCmd where
  edgeIdx : Int
  savedSource : Nat
  savedTarget : Nat

/-- The `RemoveEdgeCommand` constructor. -/
def mkRemoveEdgeCmd (edgeIdx : Int) : RemoveEdgeCmd := ⟨edgeIdx, 0, 0⟩

/-- `RemoveEdgeCommand.execute()`. -/
def RemoveEdgeCmd.exec (c : RemoveEdgeCmd) (g : GraphState) : RemoveEdgeCmd × GraphState :=
  let c1 :=
    { c with
      savedSource := g.edgeSource.get c.edgeIdx.toNat 0
      savedTarget := g.edgeTarget.get c.edgeIdx.toNat 0 }
  (c1, (g.removeEdge c.edgeIdx).1)

/-- `RemoveEdgeCommand.undo()`. -/
def RemoveEdgeCmd.undoCmd (c : RemoveEdgeCmd) (g : GraphState) : RemoveEdgeCmd × GraphState :=
  (c, (g.addEdge (c.savedSource : Int) (c.savedTarget : Int)).1)

/-- A sub-command of `BatchDeleteCommand`. -/
inductive BatchSub where
  | edge : RemoveEdgeCmd → BatchSub
  | node : RemoveNodeCmd → BatchSub

/-- Dispatch `execute()` on a batch sub-command. -/
def BatchSub.exec : BatchSub → GraphState → BatchSub × GraphState
  | .edge c, g => let r := c.exec g; (.edge r.1, r.2)
  | .node c, g => let r := c.exec g; (.node r.1, r.2)

/-- Dispatch `undo()` on a batch sub-command. -/
def BatchSub.undoCmd : BatchSub → GraphState → BatchSub × GraphState
  | .edge c, g => let r := c.undoCmd g; (.edge r.1, r.2)
  | .node c, g => let r := c.undoCmd g; (.node r.1, r.2)

/-- Insert into a descending-sorted list, keeping equal elements in
encounter order. -/
def insertDescInt (a : Int) : List Int → List Int
  | [] => [a]
  | b :: l => if b < a then a :: b :: l else b :: insertDescInt a l

/-- Descending numeric sort, `[...indices].sort((a, b) => b - a)` — a
stable descending sort, as ECMAScript guarantees. -/
def sortDescInt (l : List Int) : List Int :=
  l.foldr insertDescInt []

/-- `BatchDeleteCommand` — its only state is the constructed sub-command
list. -/
structure BatchDeleteCmd where
  commands : List BatchSub

/-- The `BatchDeleteCommand` constructor: all requested edges first
(descending), then all requested nodes (descending).  The TS constructor
receives the graph reference only to store it in the sub-commands, which
is implicit here. -/
def mkBatchDeleteCmd (nodeIndices edgeIndices : List Int) : BatchDeleteCmd :=
  ⟨(sortDescInt edgeIndices).map (fun i => .edge (mkRemoveEdgeCmd i)) ++
    (sortDescInt nodeIndices).map (fun i => .node (mkRemoveNodeCmd i))⟩

/-- `BatchDeleteCommand.execute()`: run sub-commands in order. -/
def BatchDeleteCmd.exec (c : BatchDeleteCmd) (g : GraphState) : BatchDeleteCmd × GraphState :=
  let r := c.commands.foldl
    (fun (acc : List BatchSub × GraphState) sub =>
      let s := sub.exec acc.2
      (acc.1 ++ [s.1], s.2))
    ([], g)
  (⟨r.1⟩, r.2)

/-- `BatchDeleteCommand.undo()`: run sub-command undos in reverse order. -/
def BatchDeleteCmd.undoCmd (c : BatchDeleteCmd) (g : GraphState) : BatchDeleteCmd × GraphState :=
  let r := c.commands.reverse.foldl
    (fun (acc : List BatchSub × GraphState) sub =>
      let s := sub.undoCmd acc.2
      (acc.1 ++ [s.1], s.2))
    ([], g)
  (⟨r.1.reverse⟩, r.2)

/-- The command objects handled by the history in the claims under
verification. -/
inductive Cmd where
  | add : AddNodeCmd → Cmd
  | batch : BatchDeleteCmd → Cmd

/-- `Command.execute()` dispatch. -/
def Cmd.exec : Cmd → GraphState → Cmd × GraphState
  | .add c, g => let r := c.exec g; (.add r.1, r.2)
  | .batch c, g => let r := c.exec g; (.batch r.1, r.2)

/-- `Command.undo()` dispatch. -/
def Cmd.undoCmd : Cmd → GraphState → Cmd × GraphState
  | .add c, g => let r := c.undoCmd g; (.add r.1, r.2)
  | .batch c, g => let r := c.undoCmd g; (.batch r.1, r.2)

/-- `class CommandHistory` — undo/redo stacks (top at the end) and the
maximum depth. -/
structure CommandHistory where
  undoStack : List Cmd
  redoStack : List Cmd
  maxHistory : Nat

/-- The `CommandHistory` constructor (default depth 100). -/
def mkCommandHistory (maxHistory : Nat) : CommandHistory := ⟨[], [], maxHistory⟩

/-- `CommandHistory.execute(cmd)`: run, push, clear redo, trim oldest. -/
def CommandHistory.execute (h : CommandHistory) (c : Cmd) (g : GraphState) :
    CommandHistory × GraphState :=
  let r := c.exec g
  let stack := h.undoStack ++ [r.1]
  let stack := if h.maxHistory < stack.length then stack.drop 1 else stack
  ({ h with undoStack := stack, redoStack := [] }, r.2)

/-- `CommandHistory.undo()`: pop, run `undo`, push onto redo; reports the
affected command (`none` when the stack is empty). -/
def CommandHistory.undoLast (h : CommandHistory) (g : GraphState) :
    CommandHistory × GraphState × Option Cmd :=
  match h.undoStack.getLast? with
  | none => (h, g, none)
  | some c =>
    let r := c.undoCmd g
    ({ h with undoStack := h.undoStack.dropLast, redoStack := h.redoStack ++ [r.1] },
      r.2, some r.1)


namespace GraphState

/-- Repeated `addNode` calls; returns the final state together with the
list of returned indices (in call order). -/
def insertSeq (g : GraphState) : List (Int × Int) → GraphState × List Nat
  | [] => (g, [])
  | p :: rest =>
    let r := g.addNode p.1 p.2
    let q := insertSeq r.1 rest
    (q.1, r.2 :: q.2)

/-- Three nodes `A(1,2)`, `B(3,4)`, `C(5,6)` and the single edge `(0,2)`
— the arena of the compaction test of §8. -/
def c2Graph : GraphState :=
  (((((mkGraphState 10 10).addNode 1 2).1.addNode 3 4).1.addNode 5 6).1.addEdge 0 2).1

/-- Three nodes `A(1,2)`, `B(3,4)`, `C(5,6)` with edges `(0,1)` and
`(0,2)`: node 0 has exactly two incident edges, one of which reaches the
last-indexed node. -/
def c3Graph : GraphState :=
  ((((((mkGraphState 10 10).addNode 1 2).1.addNode 3 4).1.addNode 5 6).1.addEdge
    0 1).1.addEdge 0 2).1

/-- Two disjoint triangles: nodes 0-2 and 3-5, each fully connected
internally. -/
def triGraph : GraphState :=
  let g := mkGraphState 10 20
  let g := (g.addNode 0 0).1
  let g := (g.addNode 1 0).1
  let g := (g.addNode 0 1).1
  let g := (g.addNode 10 10).1
  let g := (g.addNode 11 10).1
  let g := (g.addNode 10 11).1
  let g := (g.addEdge 0 1).1
  let g := (g.addEdge 0 2).1
  let g := (g.addEdge 1 2).1
  let g := (g.addEdge 3 4).1
  let g := (g.addEdge 3 5).1
  (g.addEdge 4 5).1

/-- Three nodes at `(0,0)`, `(10,0)`, `(3,0)` — the arena of the
nearest-node test of §8. -/
def fnnGraph : GraphState :=
  ((((mkGraphState 10 10).addNode 0 0).1.addNode 10 0).1.addNode 3 0).1

end GraphState

/-- The batch-delete round trip of claim C3 evaluated through
`CommandHistory` on `c3Graph`: execute `BatchDeleteCommand([0], [])`,
then `undo()`; returns the final graph. -/
def c3RoundTrip : GraphState :=
  let h0 := mkCommandHistory 100
  let step1 := h0.execute (Cmd.batch (mkBatchDeleteCmd [0] [])) GraphState.c3Graph
  (step1.1.undoLast step1.2).2.1

/-!
## Infrastructure lemmas
-/

namespace JArr

theorem size_set {α : Type} (a : JArr α) (i : Nat) (v : α) : (a.set i v).size = a.size := by
  unfold set
  split <;> rfl

theorem get_set_self {α : Type} (a : JArr α) (i : Nat) (v d : α) (h : i < a.size) :
    (a.set i v).get i d = v := by
  unfold set get
  simp [h]

theorem get_set_ne {α : Type} (a : JArr α) (i j : Nat) (v d : α) (h : j ≠ i) :
    (a.set i v).get j d = a.get j d := by
  unfold set get
  split
  · simp [Function.update_noteq h]
  · rfl

theorem get_grow {α : Type} (a : JArr α) (d : α) (n i : Nat) (h : i < n) :
    (a.grow d n).get i d = a.get i d := by
  unfold grow get
  simp [h]

theorem size_grow {α : Type} (a : JArr α) (d : α) (n : Nat) : (a.grow d n).size = n := rfl

theorem size_make {α : Type} (n : Nat) (v : α) : (make n v).size = n := rfl

theorem get_make {α : Type} (n i : Nat) (v : α) : (make n v).get i v = v := by
  unfold make get
  split <;> rfl

end JArr

namespace GraphState

theorem samePair_symm {e f : Nat × Nat} (h : samePair e f) : samePair f e := by
  rcases h with ⟨h1, h2⟩ | ⟨h1, h2⟩
  · exact Or.inl ⟨h1.symm, h2.symm⟩
  · exact Or.inr ⟨h2.symm, h1.symm⟩

theorem length_edgePairs (g : GraphState) : (edgePairs g).length = g.edgeCount := by
  simp [edgePairs]

theorem getElem_edgePairs (g : GraphState) (i : Nat) (h : i < (edgePairs g).length) :
    (edgePairs g)[i] = (g.edgeSource.get i 0, g.edgeTarget.get i 0) := by
  simp [edgePairs]

/-- The indexed edge invariant in terms of the `edgePairs` view. -/
theorem edgeInvariant_iff (g : GraphState) :
    EdgeInvariant g ↔
      (∀ e ∈ edgePairs g, e.1 ≠ e.2 ∧ e.1 < g.nodeCount ∧ e.2 < g.nodeCount) ∧
        (edgePairs g).Pairwise (fun e f => ¬ samePair e f) := by
  constructor
  · rintro ⟨h1, h2⟩
    constructor
    · intro e he
      rw [List.mem_iff_getElem] at he
      obtain ⟨i, hi, rfl⟩ := he
      rw [getElem_edgePairs]
      exact h1 i (by simpa [length_edgePairs] using hi)
    · rw [List.pairwise_iff_getElem]
      intro i j hi hj hij
      rw [getElem_edgePairs, getElem_edgePairs]
      exact h2 i j hij (by simpa [length_edgePairs] using hj)
  · rintro ⟨h1, h2⟩
    constructor
    · intro i hi
      have hm : (g.edgeSource.get i 0, g.edgeTarget.get i 0) ∈ edgePairs g := by
        rw [List.mem_iff_getElem]
        exact ⟨i, by simpa [length_edgePairs] using hi, by rw [getElem_edgePairs]⟩
      exact h1 _ hm
    · intro i j hij hj
      rw [List.pairwise_iff_getElem] at h2
      have hi' : i < (edgePairs g).length := by rw [length_edgePairs]; omega
      have hj' : j < (edgePairs g).length := by rw [length_edgePairs]; exact hj
      have := h2 i j hi' hj' hij
      rwa [getElem_edgePairs, getElem_edgePairs] at this

end GraphState

namespace GraphState

theorem removeEdge_out_of_range (g : GraphState) (i : Int)
    (h : i < 0 ∨ (g.edgeCount : Int) ≤ i) : g.removeEdge i = (g, false) := by
  unfold removeEdge
  simp [h]

theorem removeEdge_last_eq (g : GraphState) (hpos : 0 < g.edgeCount) :
    g.removeEdge ((g.edgeCount - 1 : Nat) : Int) =
      ({ g with edgeCount := g.edgeCount - 1, version := g.version + 1 }, true) := by
  have hcond : ¬(((g.edgeCount - 1 : Nat) : Int) < 0 ∨
      (g.edgeCount : Int) ≤ ((g.edgeCount - 1 : Nat) : Int)) := by
    push_neg
    constructor
    · exact Int.natCast_nonneg _
    · have : g.edgeCount - 1 < g.edgeCount := by omega
      exact_mod_cast this
  unfold removeEdge
  simp [hcond]
  omega

theorem removeEdge_swap_eq (g : GraphState) (i : Nat) (hi : i < g.edgeCount - 1) :
    g.removeEdge (i : Int) =
      ({ g with
          edgeSource := g.edgeSource.set i (g.edgeSource.get (g.edgeCount - 1) 0)
          edgeTarget := g.edgeTarget.set i (g.edgeTarget.get (g.edgeCount - 1) 0)
          edgeCount := g.edgeCount - 1
          version := g.version + 1 }, true) := by
  have hcond : ¬((i : Int) < 0 ∨ (g.edgeCount : Int) ≤ (i : Int)) := by
    push_neg
    constructor
    · exact Int.natCast_nonneg i
    · have : i < g.edgeCount := by omega
      exact_mod_cast this
  have hne : i ≠ g.edgeCount - 1 := by omega
  unfold removeEdge
  simp [hcond, hne]
  omega

theorem eraseIdx_last_edgePairs (g : GraphState) (hpos : 0 < g.edgeCount) :
    (edgePairs g).eraseIdx (g.edgeCount - 1) = (edgePairs g).dropLast := by
  rw [List.eraseIdx_eq_take_drop_succ, List.dropLast_eq_take, length_edgePairs]
  have h1 : g.edgeCount - 1 + 1 = g.edgeCount := by omega
  rw [h1]
  have h2 : (edgePairs g).drop g.edgeCount = [] :=
    List.drop_eq_nil_of_le (by rw [length_edgePairs])
  rw [h2, List.append_nil]

/-- A list with the element at `i` overwritten by an appended final
element is, up to permutation, the original list with position `i`
erased: the swap-with-last compaction step of `removeEdge`. -/
theorem set_perm_eraseIdx_append {α : Type} (t : List α) (z : α) (i : Nat)
    (hi : i < t.length) : (t.set i z).Perm ((t ++ [z]).eraseIdx i) := by
  rw [List.eraseIdx_append_of_lt_length hi]
  rw [List.set_eq_take_cons_drop z hi, List.eraseIdx_eq_take_drop_succ]
  exact List.perm_middle.trans (List.perm_append_singleton _ _).symm

theorem edgePairs_removeEdge (g : GraphState) (i : Nat) (hi : i < g.edgeCount)
    (hs : g.edgeCount ≤ g.edgeSource.size) (ht : g.edgeCount ≤ g.edgeTarget.size) :
    (edgePairs (g.removeEdge (i : Int)).1).Perm ((edgePairs g).eraseIdx i) := by
  by_cases hil : i = g.edgeCount - 1
  · subst hil
    rw [removeEdge_last_eq g (by omega)]
    rw [eraseIdx_last_edgePairs g (by omega)]
    have heq : edgePairs { g with edgeCount := g.edgeCount - 1, version := g.version + 1 } =
        (edgePairs g).dropLast := by
      unfold edgePairs
      rw [List.dropLast_eq_take]
      simp only [List.length_map, List.length_range]
      rw [← List.map_take, List.take_range]
      have : min (g.edgeCount - 1) g.edgeCount = g.edgeCount - 1 := by omega
      rw [this]
    rw [heq]
  · have hlt : i < g.edgeCount - 1 := by omega
    rw [removeEdge_swap_eq g i hlt]
    have hne : edgePairs g ≠ [] := by
      intro h
      have := length_edgePairs g
      rw [h] at this
      simp at this
      omega
    have hlast : (edgePairs g).getLast hne =
        (g.edgeSource.get (g.edgeCount - 1) 0, g.edgeTarget.get (g.edgeCount - 1) 0) := by
      rw [List.getLast_eq_getElem]
      have hb : (edgePairs g).length - 1 < (edgePairs g).length := by
        rw [length_edgePairs]
        omega
      rw [getElem_edgePairs g _ hb, length_edgePairs]
    have hdecomp : (edgePairs g).dropLast ++
        [(g.edgeSource.get (g.edgeCount - 1) 0, g.edgeTarget.get (g.edgeCount - 1) 0)] =
        edgePairs g := by
      rw [← hlast]
      exact List.dropLast_concat_getLast hne
    have hlen : i < (edgePairs g).dropLast.length := by
      rw [List.length_dropLast, length_edgePairs]
      omega
    have heq : edgePairs
        { g with
          edgeSource := g.edgeSource.set i (g.edgeSource.get (g.edgeCount - 1) 0)
          edgeTarget := g.edgeTarget.set i (g.edgeTarget.get (g.edgeCount - 1) 0)
          edgeCount := g.edgeCount - 1
          version := g.version + 1 } =
        (edgePairs g).dropLast.set i
          (g.edgeSource.get (g.edgeCount - 1) 0, g.edgeTarget.get (g.edgeCount - 1) 0) := by
      apply List.ext_getElem
      · simp only [edgePairs, List.length_map, List.length_range, List.length_set,
          List.length_dropLast]
      · intro j hj1 hj2
        have hj : j < g.edgeCount - 1 := by
          simpa [edgePairs] using hj1
        by_cases hji : j = i
        · subst hji
          rw [List.getElem_set_self]
          simp only [edgePairs, List.getElem_map, List.getElem_range]
          rw [JArr.get_set_self _ _ _ _ (by omega), JArr.get_set_self _ _ _ _ (by omega)]
        · rw [List.getElem_set_ne (fun h => hji h.symm)]
          simp only [edgePairs, List.getElem_map, List.getElem_range]
          rw [JArr.get_set_ne _ _ _ _ _ hji, JArr.get_set_ne _ _ _ _ _ hji]
          rw [List.getElem_dropLast]
          simp only [List.getElem_map, List.getElem_range]
    rw [heq]
    have := set_perm_eraseIdx_append (edgePairs g).dropLast
      (g.edgeSource.get (g.edgeCount - 1) 0, g.edgeTarget.get (g.edgeCount - 1) 0) i hlen
    rwa [hdecomp] at this

end GraphState

namespace GraphState

theorem filter_eraseIdx_of_not {α : Type} (l : List α) (p : α → Bool) (k : Nat)
    (hk : k < l.length) (h : p (l.get ⟨k, hk⟩) = false) :
    (l.eraseIdx k).filter p = l.filter p := by
  rw [List.eraseIdx_eq_take_drop_succ]
  conv_rhs => rw [← List.take_append_drop k l]
  rw [← List.getElem_cons_drop l k hk]
  rw [List.filter_append, List.filter_append, List.filter_cons]
  simp only [List.get_eq_getElem] at h
  rw [h]
  simp

theorem mem_edgePairs_iff (g : GraphState) (e : Nat × Nat) :
    e ∈ edgePairs g ↔
      ∃ j, j < g.edgeCount ∧ (g.edgeSource.get j 0, g.edgeTarget.get j 0) = e := by
  constructor
  · intro he
    rw [List.mem_iff_getElem] at he
    obtain ⟨j, hj, hje⟩ := he
    refine ⟨j, by simpa [length_edgePairs] using hj, ?_⟩
    rw [← hje, getElem_edgePairs]
  · rintro ⟨j, hj, rfl⟩
    rw [List.mem_iff_getElem]
    exact ⟨j, by simpa [length_edgePairs] using hj, by rw [getElem_edgePairs]⟩

theorem nodeFieldsEq_rfl (g : GraphState) : NodeFieldsEq g g :=
  ⟨rfl, rfl, rfl, rfl, rfl, rfl⟩

theorem nodeFieldsEq_trans {g1 g2 g3 : GraphState} (h1 : NodeFieldsEq g1 g2)
    (h2 : NodeFieldsEq g2 g3) : NodeFieldsEq g1 g3 := by
  obtain ⟨px, py, pvx, pvy, pc, pcap⟩ := h1
  obtain ⟨qx, qy, qvx, qvy, qc, qcap⟩ := h2
  exact ⟨qx.trans px, qy.trans py, qvx.trans pvx,
    qvy.trans pvy, qc.trans pc, qcap.trans pcap⟩

theorem edgeSizesEq_rfl (g : GraphState) : EdgeSizesEq g g := ⟨rfl, rfl, rfl⟩

theorem edgeSizesEq_trans {g1 g2 g3 : GraphState} (h1 : EdgeSizesEq g1 g2)
    (h2 : EdgeSizesEq g2 g3) : EdgeSizesEq g1 g3 := by
  obtain ⟨ps, pt, pcap⟩ := h1
  obtain ⟨qs, qt, qcap⟩ := h2
  exact ⟨qs.trans ps, qt.trans pt, qcap.trans pcap⟩

theorem removeEdge_last_fst (g : GraphState) (hpos : 0 < g.edgeCount) :
    (g.removeEdge ((g.edgeCount - 1 : Nat) : Int)).1 =
      { g with edgeCount := g.edgeCount - 1, version := g.version + 1 } := by
  rw [removeEdge_last_eq g hpos]

theorem removeEdge_swap_fst (g : GraphState) (i : Nat) (hi : i < g.edgeCount - 1) :
    (g.removeEdge (i : Int)).1 =
      { g with
        edgeSource := g.edgeSource.set i (g.edgeSource.get (g.edgeCount - 1) 0)
        edgeTarget := g.edgeTarget.set i (g.edgeTarget.get (g.edgeCount - 1) 0)
        edgeCount := g.edgeCount - 1
        version := g.version + 1 } := by
  rw [removeEdge_swap_eq g i hi]

/-- Invariant proof of the descending cascade loop of
`removeEdgesForNode`: provided every stored edge at position `≥ k` is not
incident to `n`, running the loop from index `k - 1` downwards leaves, up
to permutation, exactly the stored edges not incident to `n`; node fields
and edge-array allocation are untouched and the version never
decreases. -/
theorem removeEdgesForNodeLoop_spec (n : Nat) : ∀ (k : Nat) (g : GraphState),
    k ≤ g.edgeCount →
    g.edgeCount ≤ g.edgeSource.size → g.edgeCount ≤ g.edgeTarget.size →
    (∀ j, k ≤ j → j < g.edgeCount →
      ¬ incidentTo n (g.edgeSource.get j 0, g.edgeTarget.get j 0)) →
    (edgePairs (removeEdgesForNodeLoop n k g)).Perm
        ((edgePairs g).filter fun e => !(decide (incidentTo n e))) ∧
      NodeFieldsEq g (removeEdgesForNodeLoop n k g) ∧
      EdgeSizesEq g (removeEdgesForNodeLoop n k g) ∧
      g.version ≤ (removeEdgesForNodeLoop n k g).version
  | 0, g, _, hs, ht, hall => by
    rw [removeEdgesForNodeLoop]
    have hfe : (edgePairs g).filter (fun e => !(decide (incidentTo n e))) = edgePairs g := by
      rw [List.filter_eq_self]
      intro e he
      rw [mem_edgePairs_iff] at he
      obtain ⟨j, hj, rfl⟩ := he
      simpa using hall j (Nat.zero_le j) hj
    rw [hfe]
    exact ⟨List.Perm.refl _, nodeFieldsEq_rfl g, edgeSizesEq_rfl g, Nat.le_refl _⟩
  | k + 1, g, hk, hs, ht, hall => by
    rw [removeEdgesForNodeLoop]
    by_cases hinc : g.edgeSource.get k 0 = n ∨ g.edgeTarget.get k 0 = n
    · simp only [hinc, if_true]
      have hklt : k < g.edgeCount := by omega
      have hperm := edgePairs_removeEdge g k hklt hs ht
      have hpredk :
          (fun e => !(decide (incidentTo n e)))
            ((edgePairs g).get ⟨k, by rw [length_edgePairs]; exact hklt⟩) = false := by
        have hgk : (edgePairs g).get ⟨k, by rw [length_edgePairs]; exact hklt⟩ =
            (g.edgeSource.get k 0, g.edgeTarget.get k 0) := by
          simp only [List.get_eq_getElem]
          rw [getElem_edgePairs]
        rw [hgk]
        have hi2 : incidentTo n (g.edgeSource.get k 0, g.edgeTarget.get k 0) := hinc
        simp [hi2]
      have hfilter :
          ((edgePairs g).eraseIdx k).filter (fun e => !(decide (incidentTo n e))) =
            (edgePairs g).filter (fun e => !(decide (incidentTo n e))) :=
        filter_eraseIdx_of_not _ _ k (by rw [length_edgePairs]; exact hklt) hpredk
      by_cases hkl : k = g.edgeCount - 1
      · have hfst : (g.removeEdge (k : Int)).1 =
            { g with edgeCount := g.edgeCount - 1, version := g.version + 1 } := by
          rw [hkl]
          exact removeEdge_last_fst g (by omega)
        rw [hfst] at hperm ⊢
        have ih := removeEdgesForNodeLoop_spec n k
          { g with edgeCount := g.edgeCount - 1, version := g.version + 1 }
          (show k ≤ g.edgeCount - 1 by omega)
          (show g.edgeCount - 1 ≤ g.edgeSource.size by omega)
          (show g.edgeCount - 1 ≤ g.edgeTarget.size by omega)
          (by
            intro j hj1 hj2
            have hj2n : j < g.edgeCount - 1 := hj2
            omega)
        obtain ⟨ihp, ihn, ihs, ihv⟩ := ih
        refine ⟨?_, ?_, ?_, ?_⟩
        · refine ihp.trans ?_
          refine (List.Perm.filter _ hperm).trans ?_
          rw [hfilter]
        · exact nodeFieldsEq_trans ⟨rfl, rfl, rfl, rfl, rfl, rfl⟩ ihn
        · exact edgeSizesEq_trans ⟨rfl, rfl, rfl⟩ ihs
        · exact Nat.le_of_succ_le ihv
      · have hklt1 : k < g.edgeCount - 1 := by omega
        rw [removeEdge_swap_fst g k hklt1] at hperm ⊢
        have ih := removeEdgesForNodeLoop_spec n k
          { g with
            edgeSource := g.edgeSource.set k (g.edgeSource.get (g.edgeCount - 1) 0)
            edgeTarget := g.edgeTarget.set k (g.edgeTarget.get (g.edgeCount - 1) 0)
            edgeCount := g.edgeCount - 1
            version := g.version + 1 }
          (show k ≤ g.edgeCount - 1 by omega)
          (by
            show g.edgeCount - 1 ≤
              (g.edgeSource.set k (g.edgeSource.get (g.edgeCount - 1) 0)).size
            rw [JArr.size_set]
            omega)
          (by
            show g.edgeCount - 1 ≤
              (g.edgeTarget.set k (g.edgeTarget.get (g.edgeCount - 1) 0)).size
            rw [JArr.size_set]
            omega)
          (by
            intro j hj1 hj2
            have hj2n : j < g.edgeCount - 1 := hj2
            show ¬ incidentTo n
              ((g.edgeSource.set k (g.edgeSource.get (g.edgeCount - 1) 0)).get j 0,
                (g.edgeTarget.set k (g.edgeTarget.get (g.edgeCount - 1) 0)).get j 0)
            by_cases hjk : j = k
            · subst hjk
              rw [JArr.get_set_self _ _ _ _ (by omega), JArr.get_set_self _ _ _ _ (by omega)]
              exact hall (g.edgeCount - 1) (by omega) (by omega)
            · rw [JArr.get_set_ne _ _ _ _ _ hjk, JArr.get_set_ne _ _ _ _ _ hjk]
              exact hall j (by omega) (by omega))
        obtain ⟨ihp, ihn, ihs, ihv⟩ := ih
        refine ⟨?_, ?_, ?_, ?_⟩
        · refine ihp.trans ?_
          refine (List.Perm.filter _ hperm).trans ?_
          rw [hfilter]
        · exact nodeFieldsEq_trans ⟨rfl, rfl, rfl, rfl, rfl, rfl⟩ ihn
        · refine edgeSizesEq_trans ?_ ihs
          exact ⟨JArr.size_set _ _ _, JArr.size_set _ _ _, rfl⟩
        · exact Nat.le_of_succ_le ihv
    · simp only [hinc, if_false]
      exact removeEdgesForNodeLoop_spec n k g (by omega) hs ht
        (by
          intro j hj1 hj2
          rcases Nat.eq_or_lt_of_le hj1 with hj | hj
          · subst hj
            simpa [incidentTo] using hinc
          · exact hall j hj hj2)

end GraphState

namespace GraphState

/-- Invariant proof of the ascending loop of `remapNodeIndex`: after
processing indices `0 … k-1`, exactly those endpoint entries have been
rewritten through `remapVal`; everything else is untouched. -/
theorem remapLoop_spec (oldIdx newIdx : Nat) : ∀ (k : Nat) (g : GraphState),
    k ≤ g.edgeCount → g.edgeCount ≤ g.edgeSource.size → g.edgeCount ≤ g.edgeTarget.size →
    (remapLoop oldIdx newIdx k g).edgeCount = g.edgeCount ∧
      (remapLoop oldIdx newIdx k g).edgeSource.size = g.edgeSource.size ∧
      (remapLoop oldIdx newIdx k g).edgeTarget.size = g.edgeTarget.size ∧
      (remapLoop oldIdx newIdx k g).edgeCapacity = g.edgeCapacity ∧
      NodeFieldsEq g (remapLoop oldIdx newIdx k g) ∧
      (remapLoop oldIdx newIdx k g).version = g.version ∧
      (∀ j, (remapLoop oldIdx newIdx k g).edgeSource.get j 0 =
        if j < k then remapVal oldIdx newIdx (g.edgeSource.get j 0) else g.edgeSource.get j 0) ∧
      (∀ j, (remapLoop oldIdx newIdx k g).edgeTarget.get j 0 =
        if j < k then remapVal oldIdx newIdx (g.edgeTarget.get j 0) else g.edgeTarget.get j 0)
  | 0, g, _, hs, ht => by
    rw [remapLoop]
    exact ⟨rfl, rfl, rfl, rfl, nodeFieldsEq_rfl g, rfl,
      fun j => by simp, fun j => by simp⟩
  | k + 1, g, hk, hs, ht => by
    obtain ⟨ihc, ihss, ihts, ihcap, ihn, ihv, ihsrc, ihtgt⟩ :=
      remapLoop_spec oldIdx newIdx k g (by omega) hs ht
    have hkc : k < g.edgeCount := by omega
    have hloop : remapLoop oldIdx newIdx (k + 1) g =
        (let g1 := remapLoop oldIdx newIdx k g
         let g2 :=
          if g1.edgeSource.get k 0 = oldIdx then
            { g1 with edgeSource := g1.edgeSource.set k newIdx }
          else g1
         if g2.edgeTarget.get k 0 = oldIdx then
          { g2 with edgeTarget := g2.edgeTarget.set k newIdx }
         else g2) := by
      rw [remapLoop]
    rw [hloop]
    set g1 := remapLoop oldIdx newIdx k g with hg1
    set g2 :=
      if g1.edgeSource.get k 0 = oldIdx then
        { g1 with edgeSource := g1.edgeSource.set k newIdx }
      else g1 with hg2
    have hsrck : g1.edgeSource.get k 0 = g.edgeSource.get k 0 := by
      rw [ihsrc k]
      simp
    have htgtk : g1.edgeTarget.get k 0 = g.edgeTarget.get k 0 := by
      rw [ihtgt k]
      simp
    have h2frame : g2.edgeCount = g1.edgeCount ∧ g2.edgeTarget = g1.edgeTarget ∧
        g2.edgeCapacity = g1.edgeCapacity ∧ g2.nodeX = g1.nodeX ∧ g2.nodeY = g1.nodeY ∧
        g2.nodeVX = g1.nodeVX ∧ g2.nodeVY = g1.nodeVY ∧ g2.nodeCount = g1.nodeCount ∧
        g2.nodeCapacity = g1.nodeCapacity ∧ g2.version = g1.version ∧
        g2.edgeSource.size = g1.edgeSource.size := by
      rw [hg2]
      split <;> simp [JArr.size_set]
    obtain ⟨f1, f2, f3, f4, f5, f6, f7, f8, f9, f10, f11⟩ := h2frame
    have h2src : ∀ j, g2.edgeSource.get j 0 =
        if j = k then remapVal oldIdx newIdx (g1.edgeSource.get k 0)
        else g1.edgeSource.get j 0 := by
      intro j
      rw [hg2]
      split
      case isTrue hcs =>
        by_cases hjk : j = k
        · have hsz : k < g1.edgeSource.size := by rw [ihss]; omega
          rw [hjk, if_pos rfl]
          show (g1.edgeSource.set k newIdx).get k 0 = remapVal oldIdx newIdx (g1.edgeSource.get k 0)
          rw [JArr.get_set_self _ _ _ _ hsz]
          simp only [remapVal, if_pos hcs]
        · rw [if_neg hjk]
          show (g1.edgeSource.set k newIdx).get j 0 = g1.edgeSource.get j 0
          exact JArr.get_set_ne _ _ _ _ _ hjk
      case isFalse hcs =>
        by_cases hjk : j = k
        · rw [hjk, if_pos rfl]
          simp only [remapVal, if_neg hcs]
        · rw [if_neg hjk]
    set g3 :=
      if g2.edgeTarget.get k 0 = oldIdx then
        { g2 with edgeTarget := g2.edgeTarget.set k newIdx }
      else g2 with hg3
    have h3frame : g3.edgeCount = g2.edgeCount ∧ g3.edgeSource = g2.edgeSource ∧
        g3.edgeCapacity = g2.edgeCapacity ∧ g3.nodeX = g2.nodeX ∧ g3.nodeY = g2.nodeY ∧
        g3.nodeVX = g2.nodeVX ∧ g3.nodeVY = g2.nodeVY ∧ g3.nodeCount = g2.nodeCount ∧
        g3.nodeCapacity = g2.nodeCapacity ∧ g3.version = g2.version ∧
        g3.edgeTarget.size = g2.edgeTarget.size := by
      rw [hg3]
      split <;> simp [JArr.size_set]
    obtain ⟨e1, e2, e3, e4, e5, e6, e7, e8, e9, e10, e11⟩ := h3frame
    have h3tgt : ∀ j, g3.edgeTarget.get j 0 =
        if j = k then remapVal oldIdx newIdx (g2.edgeTarget.get k 0)
        else g2.edgeTarget.get j 0 := by
      intro j
      rw [hg3]
      split
      case isTrue hct =>
        by_cases hjk : j = k
        · have hsz : k < g2.edgeTarget.size := by rw [f2, ihts]; omega
          rw [hjk, if_pos rfl]
          show (g2.edgeTarget.set k newIdx).get k 0 = remapVal oldIdx newIdx (g2.edgeTarget.get k 0)
          rw [JArr.get_set_self _ _ _ _ hsz]
          simp only [remapVal, if_pos hct]
        · rw [if_neg hjk]
          show (g2.edgeTarget.set k newIdx).get j 0 = g2.edgeTarget.get j 0
          exact JArr.get_set_ne _ _ _ _ _ hjk
      case isFalse hct =>
        by_cases hjk : j = k
        · rw [hjk, if_pos rfl]
          simp only [remapVal, if_neg hct]
        · rw [if_neg hjk]
    refine ⟨?_, ?_, ?_, ?_, ?_, ?_, ?_, ?_⟩
    · rw [e1, f1, ihc]
    · rw [e2, f11, ihss]
    · rw [e11, f2, ihts]
    · rw [e3, f3, ihcap]
    · refine nodeFieldsEq_trans ihn ?_
      exact ⟨e4.trans f4, e5.trans f5, e6.trans f6, e7.trans f7, e8.trans f8, e9.trans f9⟩
    · rw [e10, f10, ihv]
    · intro j
      rw [e2, h2src j]
      by_cases hjk : j = k
      · rw [hjk, if_pos rfl, if_pos (by omega), hsrck]
      · rw [if_neg hjk, ihsrc j]
        by_cases hjlt : j < k
        · rw [if_pos hjlt, if_pos (by omega)]
        · rw [if_neg hjlt, if_neg (by omega)]
    · intro j
      rw [h3tgt j]
      by_cases hjk : j = k
      · rw [hjk, if_pos rfl, if_pos (by omega), f2, htgtk]
      · rw [if_neg hjk, f2, ihtgt j]
        by_cases hjlt : j < k
        · rw [if_pos hjlt, if_pos (by omega)]
        · rw [if_neg hjlt, if_neg (by omega)]

end GraphState

namespace GraphState

theorem remapVal_self (n v : Nat) : remapVal n n v = v := by
  unfold remapVal
  split
  · omega
  · rfl

theorem removeNode_out_of_range (g : GraphState) (i : Int)
    (h : i < 0 ∨ (g.nodeCount : Int) ≤ i) : g.removeNode i = (g, false) := by
  unfold removeNode
  simp [h]

/-- Full behavioural specification of a valid `removeNode(n)` call: the
call succeeds, the node count drops by one, capacities and array
allocations are unchanged, the version strictly increases, the edge store
becomes (up to permutation) the non-incident edges with the old last
index rewritten to `n`, and when `n` is the last occupied slot the node
arrays are untouched. -/
theorem removeNode_valid_spec (g : GraphState) (n : Nat) (hn : n < g.nodeCount)
    (hs : g.edgeCount ≤ g.edgeSource.size) (ht : g.edgeCount ≤ g.edgeTarget.size) :
    (g.removeNode (n : Int)).2 = true ∧
    (g.removeNode (n : Int)).1.nodeCount = g.nodeCount - 1 ∧
    (g.removeNode (n : Int)).1.nodeCapacity = g.nodeCapacity ∧
    (g.removeNode (n : Int)).1.edgeCapacity = g.edgeCapacity ∧
    (g.removeNode (n : Int)).1.edgeSource.size = g.edgeSource.size ∧
    (g.removeNode (n : Int)).1.edgeTarget.size = g.edgeTarget.size ∧
    (g.removeNode (n : Int)).1.nodeX.size = g.nodeX.size ∧
    (g.removeNode (n : Int)).1.nodeY.size = g.nodeY.size ∧
    (g.removeNode (n : Int)).1.nodeVX.size = g.nodeVX.size ∧
    (g.removeNode (n : Int)).1.nodeVY.size = g.nodeVY.size ∧
    g.version < (g.removeNode (n : Int)).1.version ∧
    (g.removeNode (n : Int)).1.edgeCount =
      ((edgePairs g).filter fun e => !(decide (incidentTo n e))).length ∧
    (edgePairs (g.removeNode (n : Int)).1).Perm
      (((edgePairs g).filter fun e => !(decide (incidentTo n e))).map
        fun e => (remapVal (g.nodeCount - 1) n e.1, remapVal (g.nodeCount - 1) n e.2)) ∧
    (n = g.nodeCount - 1 →
      (g.removeNode (n : Int)).1.nodeX = g.nodeX ∧
      (g.removeNode (n : Int)).1.nodeY = g.nodeY ∧
      (g.removeNode (n : Int)).1.nodeVX = g.nodeVX ∧
      (g.removeNode (n : Int)).1.nodeVY = g.nodeVY) := by
  have hcond : ¬((n : Int) < 0 ∨ (g.nodeCount : Int) ≤ (n : Int)) := by
    push_neg
    exact ⟨Int.natCast_nonneg n, by exact_mod_cast hn⟩
  have hr : g.removeNode (n : Int) =
      (let g1 := g.removeEdgesForNode n
       let lastIdx := g1.nodeCount - 1
       let g2 :=
        if n ≠ lastIdx then
          let gm :=
            { g1 with
              nodeX := g1.nodeX.set n (g1.nodeX.get lastIdx 0)
              nodeY := g1.nodeY.set n (g1.nodeY.get lastIdx 0)
              nodeVX := g1.nodeVX.set n (g1.nodeVX.get lastIdx 0)
              nodeVY := g1.nodeVY.set n (g1.nodeVY.get lastIdx 0) }
          gm.remapNodeIndex lastIdx n
        else g1
       ({ g2 with nodeCount := g2.nodeCount - 1, version := g2.version + 1 }, true)) := by
    unfold removeNode
    simp only [hcond, if_false, Int.toNat_natCast]
  rw [hr]
  dsimp only
  obtain ⟨cp, ⟨cnx, cny, cnvx, cnvy, cnc, cncap⟩, ⟨css, cts, ccap⟩, cv⟩ :=
    removeEdgesForNodeLoop_spec n g.edgeCount g (Nat.le_refl _) hs ht
      (fun j hj1 hj2 => absurd (Nat.lt_of_lt_of_le hj2 hj1) (Nat.lt_irrefl j))
  have hg1loop : g.removeEdgesForNode n = removeEdgesForNodeLoop n g.edgeCount g := rfl
  rw [← hg1loop] at cp cnx cny cnvx cnvy cnc cncap cv css cts ccap
  set g1 := g.removeEdgesForNode n with hg1def
  have hc1 : g1.edgeCount = ((edgePairs g).filter fun e => !(decide (incidentTo n e))).length := by
    rw [← length_edgePairs g1]
    exact cp.length_eq
  have hlast : g1.nodeCount - 1 = g.nodeCount - 1 := by rw [cnc]
  by_cases hnl : n = g1.nodeCount - 1
  · -- removing the last occupied slot: no swap, no remap
    rw [if_neg (by intro h; exact h hnl)]
    have hmap : (((edgePairs g).filter fun e => !(decide (incidentTo n e))).map
        fun e => (remapVal (g.nodeCount - 1) n e.1, remapVal (g.nodeCount - 1) n e.2)) =
        ((edgePairs g).filter fun e => !(decide (incidentTo n e))) := by
      have hnn : n = g.nodeCount - 1 := by rw [hnl, hlast]
      rw [← hnn]
      apply List.map_id''
      intro e
      rw [remapVal_self, remapVal_self]
    refine ⟨rfl, by simp [cnc], by simp [cncap], by simp [ccap], by simp [css],
      by simp [cts], by simp [cnx], by simp [cny], by simp [cnvx], by simp [cnvy],
      by show g.version < g1.version + 1; omega, by simpa using hc1, ?_,
      fun _ => ⟨by simp [cnx], by simp [cny],
        by simp [cnvx], by simp [cnvy]⟩⟩
    rw [hmap]
    have : edgePairs { g1 with nodeCount := g1.nodeCount - 1, version := g1.version + 1 } =
        edgePairs g1 := rfl
    rw [this]
    exact cp
  · rw [if_pos hnl]
    set gm :=
      { g1 with
        nodeX := g1.nodeX.set n (g1.nodeX.get (g1.nodeCount - 1) 0)
        nodeY := g1.nodeY.set n (g1.nodeY.get (g1.nodeCount - 1) 0)
        nodeVX := g1.nodeVX.set n (g1.nodeVX.get (g1.nodeCount - 1) 0)
        nodeVY := g1.nodeVY.set n (g1.nodeVY.get (g1.nodeCount - 1) 0) } with hgm
    have hms : gm.edgeCount ≤ gm.edgeSource.size := by
      show g1.edgeCount ≤ g1.edgeSource.size
      rw [css, hc1]
      calc ((edgePairs g).filter fun e => !(decide (incidentTo n e))).length
          ≤ (edgePairs g).length := List.length_filter_le _ _
        _ = g.edgeCount := length_edgePairs g
        _ ≤ g.edgeSource.size := hs
    have hmt : gm.edgeCount ≤ gm.edgeTarget.size := by
      show g1.edgeCount ≤ g1.edgeTarget.size
      rw [cts, hc1]
      calc ((edgePairs g).filter fun e => !(decide (incidentTo n e))).length
          ≤ (edgePairs g).length := List.length_filter_le _ _
        _ = g.edgeCount := length_edgePairs g
        _ ≤ g.edgeTarget.size := ht
    obtain ⟨rc, rss, rts, rcap, ⟨rnx, rny, rnvx, rnvy, rnc, rncap⟩, rv, rsrc, rtgt⟩ :=
      remapLoop_spec (g1.nodeCount - 1) n gm.edgeCount gm (Nat.le_refl _) hms hmt
    set g2 := gm.remapNodeIndex (g1.nodeCount - 1) n with hg2
    have hg2loop : g2 = remapLoop (g1.nodeCount - 1) n gm.edgeCount gm := rfl
    rw [← hg2loop] at rc rss rts rcap rnx rny rnvx rnvy rnc rncap rv rsrc rtgt
    have hpairs2 : edgePairs g2 =
        (edgePairs g1).map
          fun e => (remapVal (g1.nodeCount - 1) n e.1, remapVal (g1.nodeCount - 1) n e.2) := by
      apply List.ext_getElem
      · simp only [edgePairs, List.length_map, List.length_range]
        rw [rc]
      · intro j hj1 hj2
        have hjc : j < g1.edgeCount := by
          simpa [edgePairs, rc] using hj1
        simp only [edgePairs, List.getElem_map, List.getElem_range]
        rw [rsrc j, rtgt j]
        rw [if_pos (show j < gm.edgeCount from hjc), if_pos (show j < gm.edgeCount from hjc)]
    refine ⟨rfl, ?_, ?_, ?_, ?_, ?_, ?_, ?_, ?_, ?_, ?_, ?_, ?_, fun hcontra => ?_⟩
    · show g2.nodeCount - 1 = g.nodeCount - 1
      rw [rnc]
      show g1.nodeCount - 1 = g.nodeCount - 1
      exact hlast
    · show g2.nodeCapacity = g.nodeCapacity
      rw [rncap]
      exact cncap.symm ▸ rfl
    · show g2.edgeCapacity = g.edgeCapacity
      rw [rcap]
      exact ccap
    · show g2.edgeSource.size = g.edgeSource.size
      rw [rss]
      exact css
    · show g2.edgeTarget.size = g.edgeTarget.size
      rw [rts]
      exact cts
    · show g2.nodeX.size = g.nodeX.size
      rw [rnx]
      show (g1.nodeX.set n (g1.nodeX.get (g1.nodeCount - 1) 0)).size = g.nodeX.size
      rw [JArr.size_set, cnx]
    · show g2.nodeY.size = g.nodeY.size
      rw [rny]
      show (g1.nodeY.set n (g1.nodeY.get (g1.nodeCount - 1) 0)).size = g.nodeY.size
      rw [JArr.size_set, cny]
    · show g2.nodeVX.size = g.nodeVX.size
      rw [rnvx]
      show (g1.nodeVX.set n (g1.nodeVX.get (g1.nodeCount - 1) 0)).size = g.nodeVX.size
      rw [JArr.size_set, cnvx]
    · show g2.nodeVY.size = g.nodeVY.size
      rw [rnvy]
      show (g1.nodeVY.set n (g1.nodeVY.get (g1.nodeCount - 1) 0)).size = g.nodeVY.size
      rw [JArr.size_set, cnvy]
    · show g.version < g2.version + 1
      rw [rv]
      show g.version < g1.version + 1
      omega
    · show g2.edgeCount = _
      rw [rc]
      exact hc1
    · show (edgePairs { g2 with nodeCount := g2.nodeCount - 1, version := g2.version + 1 }).Perm _
      have hrw : edgePairs { g2 with nodeCount := g2.nodeCount - 1, version := g2.version + 1 } =
          edgePairs g2 := rfl
      rw [hrw, hpairs2, hlast]
      exact cp.map _
    · exact absurd (hcontra ▸ hlast.symm ▸ rfl) hnl

end GraphState

namespace GraphState

theorem addNode_eq_no_resize (g : GraphState) (x y : Int) (h : g.nodeCount < g.nodeCapacity) :
    g.addNode x y =
      ({ g with
          nodeX := g.nodeX.set g.nodeCount x
          nodeY := g.nodeY.set g.nodeCount y
          nodeVX := g.nodeVX.set g.nodeCount 0
          nodeVY := g.nodeVY.set g.nodeCount 0
          nodeCount := g.nodeCount + 1
          version := g.version + 1 }, g.nodeCount) := by
  unfold addNode
  rw [if_neg (by omega)]

theorem addNode_eq_resize (g : GraphState) (x y : Int) (h : g.nodeCapacity ≤ g.nodeCount) :
    g.addNode x y =
      ({ g with
          nodeX := (g.nodeX.grow 0 (g.nodeCapacity * 2)).set g.nodeCount x
          nodeY := (g.nodeY.grow 0 (g.nodeCapacity * 2)).set g.nodeCount y
          nodeVX := (g.nodeVX.grow 0 (g.nodeCapacity * 2)).set g.nodeCount 0
          nodeVY := (g.nodeVY.grow 0 (g.nodeCapacity * 2)).set g.nodeCount 0
          nodeCapacity := g.nodeCapacity * 2
          nodeCount := g.nodeCount + 1
          version := g.version + 1 }, g.nodeCount) := by
  unfold addNode resizeNodes
  rw [if_pos h]

/-- The parts of `addNode`'s behaviour that do not depend on whether a
resize happened. -/
theorem addNode_spec (g : GraphState) (x y : Int) :
    (g.addNode x y).2 = g.nodeCount ∧
    (g.addNode x y).1.nodeCount = g.nodeCount + 1 ∧
    (g.addNode x y).1.version = g.version + 1 ∧
    (g.addNode x y).1.edgeCount = g.edgeCount ∧
    (g.addNode x y).1.edgeSource = g.edgeSource ∧
    (g.addNode x y).1.edgeTarget = g.edgeTarget ∧
    (g.addNode x y).1.edgeCapacity = g.edgeCapacity ∧
    edgePairs (g.addNode x y).1 = edgePairs g := by
  by_cases h : g.nodeCount < g.nodeCapacity
  · rw [addNode_eq_no_resize g x y h]
    exact ⟨rfl, rfl, rfl, rfl, rfl, rfl, rfl, rfl⟩
  · rw [addNode_eq_resize g x y (by omega)]
    exact ⟨rfl, rfl, rfl, rfl, rfl, rfl, rfl, rfl⟩

theorem updateNode_out_of_range (g : GraphState) (i : Int) (x y : Int)
    (h : i < 0 ∨ (g.nodeCount : Int) ≤ i) : g.updateNode i x y = (g, false) := by
  unfold updateNode
  simp [h]

theorem updateNode_valid_eq (g : GraphState) (n : Nat) (x y : Int) (hn : n < g.nodeCount) :
    g.updateNode (n : Int) x y =
      ({ g with
          nodeX := g.nodeX.set n x
          nodeY := g.nodeY.set n y
          version := g.version + 1 }, true) := by
  have hcond : ¬((n : Int) < 0 ∨ (g.nodeCount : Int) ≤ (n : Int)) := by
    push_neg
    exact ⟨Int.natCast_nonneg n, by exact_mod_cast hn⟩
  unfold updateNode
  simp [hcond, hn]

theorem hasEdgeLoop_iff (g : GraphState) (s t : Int) : ∀ (k : Nat),
    hasEdgeLoop g s t k = true ↔
      ∃ i, i < k ∧
        (((g.edgeSource.get i 0 : Int) = s ∧ (g.edgeTarget.get i 0 : Int) = t) ∨
          ((g.edgeSource.get i 0 : Int) = t ∧ (g.edgeTarget.get i 0 : Int) = s))
  | 0 => by
    rw [hasEdgeLoop]
    simp
  | k + 1 => by
    rw [hasEdgeLoop]
    split
    case isTrue h =>
      simp only [true_iff]
      exact ⟨k, by omega, h⟩
    case isFalse h =>
      rw [hasEdgeLoop_iff g s t k]
      constructor
      · rintro ⟨i, hi, hmatch⟩
        exact ⟨i, by omega, hmatch⟩
      · rintro ⟨i, hi, hmatch⟩
        rcases Nat.lt_succ_iff_lt_or_eq.mp hi with hik | hik
        · exact ⟨i, hik, hmatch⟩
        · subst hik
          exact absurd hmatch h

/-- `hasEdge` finds exactly the stored edges matching the unordered query
pair. -/
theorem hasEdge_iff_samePair (g : GraphState) (s t : Nat) :
    g.hasEdge (s : Int) (t : Int) = true ↔ ∃ e ∈ edgePairs g, samePair e (s, t) := by
  rw [hasEdge, hasEdgeLoop_iff]
  constructor
  · rintro ⟨i, hi, hmatch⟩
    refine ⟨(g.edgeSource.get i 0, g.edgeTarget.get i 0),
      (mem_edgePairs_iff g _).mpr ⟨i, hi, rfl⟩, ?_⟩
    rcases hmatch with ⟨h1, h2⟩ | ⟨h1, h2⟩
    · exact Or.inl ⟨by exact_mod_cast h1, by exact_mod_cast h2⟩
    · exact Or.inr ⟨by exact_mod_cast h1, by exact_mod_cast h2⟩
  · rintro ⟨e, he, hsp⟩
    rw [mem_edgePairs_iff] at he
    obtain ⟨i, hi, rfl⟩ := he
    refine ⟨i, hi, ?_⟩
    rcases hsp with ⟨h1, h2⟩ | ⟨h1, h2⟩
    · exact Or.inl ⟨by exact_mod_cast h1, by exact_mod_cast h2⟩
    · exact Or.inr ⟨by exact_mod_cast h1, by exact_mod_cast h2⟩

theorem addEdge_fail (g : GraphState) (s t : Int)
    (h : s < 0 ∨ (g.nodeCount : Int) ≤ s ∨ t < 0 ∨ (g.nodeCount : Int) ≤ t ∨ s = t ∨
      g.hasEdge s t = true) :
    g.addEdge s t = (g, -1) := by
  unfold addEdge
  split_ifs with h1 h2 h3 h4 h5
  · rfl
  · rfl
  · rfl
  · rfl
  all_goals
    exfalso
    rcases h with h | h | h | h | h | h
    · exact h1 (Or.inl h)
    · exact h1 (Or.inr h)
    · exact h2 (Or.inl h)
    · exact h2 (Or.inr h)
    · exact h3 h
    · rw [h] at h4
      exact h4 rfl

/-- Behaviour of a successful `addEdge(s, t)` call (both endpoints valid,
no self-loop, no duplicate), assuming the edge arrays are allocated at
the capacity: the pair is appended, the count and version increase, and
the allocation invariants are maintained. -/
theorem addEdge_valid_spec (g : GraphState) (s t : Nat)
    (hsn : s < g.nodeCount) (htn : t < g.nodeCount) (hst : s ≠ t)
    (hdup : g.hasEdge (s : Int) (t : Int) = false)
    (hss : g.edgeSource.size = g.edgeCapacity) (hts : g.edgeTarget.size = g.edgeCapacity)
    (hcc : g.edgeCount ≤ g.edgeCapacity) (hcp : 0 < g.edgeCapacity) :
    (g.addEdge (s : Int) (t : Int)).2 = (g.edgeCount : Int) ∧
    (g.addEdge (s : Int) (t : Int)).1.edgeCount = g.edgeCount + 1 ∧
    (g.addEdge (s : Int) (t : Int)).1.version = g.version + 1 ∧
    NodeFieldsEq g (g.addEdge (s : Int) (t : Int)).1 ∧
    (g.addEdge (s : Int) (t : Int)).1.edgeSource.size =
      (g.addEdge (s : Int) (t : Int)).1.edgeCapacity ∧
    (g.addEdge (s : Int) (t : Int)).1.edgeTarget.size =
      (g.addEdge (s : Int) (t : Int)).1.edgeCapacity ∧
    (g.addEdge (s : Int) (t : Int)).1.edgeCount ≤
      (g.addEdge (s : Int) (t : Int)).1.edgeCapacity ∧
    0 < (g.addEdge (s : Int) (t : Int)).1.edgeCapacity ∧
    edgePairs (g.addEdge (s : Int) (t : Int)).1 = edgePairs g ++ [(s, t)] := by
  have hconds : ¬((s : Int) < 0 ∨ (g.nodeCount : Int) ≤ (s : Int)) := by
    push_neg
    exact ⟨Int.natCast_nonneg s, by exact_mod_cast hsn⟩
  have hcondt : ¬((t : Int) < 0 ∨ (g.nodeCount : Int) ≤ (t : Int)) := by
    push_neg
    exact ⟨Int.natCast_nonneg t, by exact_mod_cast htn⟩
  have hcondst : ¬((s : Int) = (t : Int)) := by exact_mod_cast hst
  have hr : g.addEdge (s : Int) (t : Int) =
      (let g1 := if g.edgeCapacity ≤ g.edgeCount then g.resizeEdges (g.edgeCapacity * 2) else g
       ({ g1 with
          edgeSource := g1.edgeSource.set g1.edgeCount s
          edgeTarget := g1.edgeTarget.set g1.edgeCount t
          edgeCount := g1.edgeCount + 1
          version := g1.version + 1 }, (g1.edgeCount : Int))) := by
    unfold addEdge
    rw [if_neg hconds, if_neg hcondt, if_neg hcondst, if_neg (by rw [hdup]; exact Bool.false_ne_true)]
    simp only [Int.toNat_natCast]
  by_cases hresize : g.edgeCapacity ≤ g.edgeCount
  · have hceq : g.edgeCount = g.edgeCapacity := by omega
    have hr2 : g.addEdge (s : Int) (t : Int) =
        ({ g with
            edgeSource := (g.edgeSource.grow 0 (g.edgeCapacity * 2)).set g.edgeCount s
            edgeTarget := (g.edgeTarget.grow 0 (g.edgeCapacity * 2)).set g.edgeCount t
            edgeCapacity := g.edgeCapacity * 2
            edgeCount := g.edgeCount + 1
            version := g.version + 1 }, (g.edgeCount : Int)) := by
      rw [hr]
      dsimp only
      rw [if_pos hresize]
      rfl
    rw [hr2]
    have hwrite : g.edgeCount < (g.edgeSource.grow 0 (g.edgeCapacity * 2)).size := by
      rw [JArr.size_grow]
      omega
    have hwritet : g.edgeCount < (g.edgeTarget.grow 0 (g.edgeCapacity * 2)).size := by
      rw [JArr.size_grow]
      omega
    refine ⟨rfl, rfl, rfl, ⟨rfl, rfl, rfl, rfl, rfl, rfl⟩, ?_, ?_, ?_, ?_, ?_⟩
    · show ((g.edgeSource.grow 0 (g.edgeCapacity * 2)).set g.edgeCount s).size =
        g.edgeCapacity * 2
      rw [JArr.size_set, JArr.size_grow]
    · show ((g.edgeTarget.grow 0 (g.edgeCapacity * 2)).set g.edgeCount t).size =
        g.edgeCapacity * 2
      rw [JArr.size_set, JArr.size_grow]
    · show g.edgeCount + 1 ≤ g.edgeCapacity * 2
      omega
    · show 0 < g.edgeCapacity * 2
      omega
    · apply List.ext_getElem
      · rw [length_edgePairs, List.length_append, length_edgePairs]
        rfl
      · intro j hj1 hj2
        rw [length_edgePairs] at hj1
        have hj1n : j < g.edgeCount + 1 := hj1
        rw [getElem_edgePairs]
        by_cases hjc : j = g.edgeCount
        · subst hjc
          show (((g.edgeSource.grow 0 (g.edgeCapacity * 2)).set g.edgeCount s).get
              g.edgeCount 0,
            ((g.edgeTarget.grow 0 (g.edgeCapacity * 2)).set g.edgeCount t).get
              g.edgeCount 0) = (edgePairs g ++ [(s, t)])[g.edgeCount]
          rw [JArr.get_set_self _ _ _ _ hwrite, JArr.get_set_self _ _ _ _ hwritet]
          rw [List.getElem_append_right (by rw [length_edgePairs])]
          simp [length_edgePairs]
        · have hjlt : j < g.edgeCount := by omega
          show (((g.edgeSource.grow 0 (g.edgeCapacity * 2)).set g.edgeCount s).get j 0,
            ((g.edgeTarget.grow 0 (g.edgeCapacity * 2)).set g.edgeCount t).get j 0) =
            (edgePairs g ++ [(s, t)])[j]
          rw [JArr.get_set_ne _ _ _ _ _ hjc, JArr.get_set_ne _ _ _ _ _ hjc]
          rw [JArr.get_grow _ _ _ _ (by omega), JArr.get_grow _ _ _ _ (by omega)]
          rw [List.getElem_append_left (by rw [length_edgePairs]; exact hjlt)]
          rw [getElem_edgePairs]
  · have hr2 : g.addEdge (s : Int) (t : Int) =
        ({ g with
            edgeSource := g.edgeSource.set g.edgeCount s
            edgeTarget := g.edgeTarget.set g.edgeCount t
            edgeCount := g.edgeCount + 1
            version := g.version + 1 }, (g.edgeCount : Int)) := by
      rw [hr]
      dsimp only
      rw [if_neg hresize]
    rw [hr2]
    have hwrite : g.edgeCount < g.edgeSource.size := by omega
    have hwritet : g.edgeCount < g.edgeTarget.size := by omega
    refine ⟨rfl, rfl, rfl, ⟨rfl, rfl, rfl, rfl, rfl, rfl⟩, ?_, ?_, ?_, ?_, ?_⟩
    · show (g.edgeSource.set g.edgeCount s).size = g.edgeCapacity
      rw [JArr.size_set, hss]
    · show (g.edgeTarget.set g.edgeCount t).size = g.edgeCapacity
      rw [JArr.size_set, hts]
    · show g.edgeCount + 1 ≤ g.edgeCapacity
      omega
    · exact hcp
    · apply List.ext_getElem
      · rw [length_edgePairs, List.length_append, length_edgePairs]
        rfl
      · intro j hj1 hj2
        rw [length_edgePairs] at hj1
        have hj1n : j < g.edgeCount + 1 := hj1
        rw [getElem_edgePairs]
        by_cases hjc : j = g.edgeCount
        · subst hjc
          show ((g.edgeSource.set g.edgeCount s).get g.edgeCount 0,
            (g.edgeTarget.set g.edgeCount t).get g.edgeCount 0) =
            (edgePairs g ++ [(s, t)])[g.edgeCount]
          rw [JArr.get_set_self _ _ _ _ hwrite, JArr.get_set_self _ _ _ _ hwritet]
          rw [List.getElem_append_right (by rw [length_edgePairs])]
          simp [length_edgePairs]
        · have hjlt : j < g.edgeCount := by omega
          show ((g.edgeSource.set g.edgeCount s).get j 0,
            (g.edgeTarget.set g.edgeCount t).get j 0) =
            (edgePairs g ++ [(s, t)])[j]
          rw [JArr.get_set_ne _ _ _ _ _ hjc, JArr.get_set_ne _ _ _ _ _ hjc]
          rw [List.getElem_append_left (by rw [length_edgePairs]; exact hjlt)]
          rw [getElem_edgePairs]

end GraphState

namespace GraphState

theorem remapVal_lt (count n v : Nat) (hv : v < count) (hvn : v ≠ n) (hn : n < count) :
    remapVal (count - 1) n v < count - 1 := by
  unfold remapVal
  split
  · omega
  · omega

theorem remapVal_inj (count n v w : Nat) (hv : v ≠ n) (hw : w ≠ n)
    (h : remapVal (count - 1) n v = remapVal (count - 1) n w) : v = w := by
  unfold remapVal at h
  split at h <;> split at h <;> omega

theorem samePair_of_remap (n c : Nat) (e f : Nat × Nat)
    (he1 : e.1 ≠ n) (he2 : e.2 ≠ n) (hf1 : f.1 ≠ n) (hf2 : f.2 ≠ n)
    (h : samePair (remapVal (c - 1) n e.1, remapVal (c - 1) n e.2)
      (remapVal (c - 1) n f.1, remapVal (c - 1) n f.2)) : samePair e f := by
  rcases h with ⟨h1, h2⟩ | ⟨h1, h2⟩
  · exact Or.inl ⟨remapVal_inj c n _ _ he1 hf1 h1, remapVal_inj c n _ _ he2 hf2 h2⟩
  · exact Or.inr ⟨remapVal_inj c n _ _ he1 hf2 h1, remapVal_inj c n _ _ he2 hf1 h2⟩

theorem wf_mkGraphState (ncap ecap : Nat) (hn : 0 < ncap) (he : 0 < ecap) :
    ArenaWf (mkGraphState ncap ecap) := by
  refine ⟨⟨rfl, rfl, rfl, rfl, rfl, rfl, Nat.zero_le _, Nat.zero_le _, hn, he⟩, ?_, ?_⟩
  · intro i hi
    exact absurd hi (Nat.not_lt_zero i)
  · intro i j _ hj
    exact absurd hj (Nat.not_lt_zero j)

theorem wf_addNode (g : GraphState) (x y : Int) (hwf : ArenaWf g) :
    ArenaWf (g.addNode x y).1 := by
  obtain ⟨⟨s1, s2, s3, s4, s5, s6, s7, s8, s9, s10⟩, hinv⟩ := hwf
  have hedges : ∀ i, (g.addNode x y).1.edgeSource.get i 0 = g.edgeSource.get i 0 ∧
      (g.addNode x y).1.edgeTarget.get i 0 = g.edgeTarget.get i 0 := by
    intro i
    obtain ⟨_, _, _, _, hsrc, htgt, _, _⟩ := addNode_spec g x y
    rw [hsrc, htgt]
    exact ⟨rfl, rfl⟩
  obtain ⟨_, hcnt, _, hecnt, hsrc, htgt, hecap, _⟩ := addNode_spec g x y
  constructor
  · by_cases h : g.nodeCount < g.nodeCapacity
    · rw [addNode_eq_no_resize g x y h]
      refine ⟨?_, ?_, ?_, ?_, s5, s6, ?_, s8, s9, s10⟩
      · show (g.nodeX.set g.nodeCount x).size = g.nodeCapacity
        rw [JArr.size_set]
        exact s1
      · show (g.nodeY.set g.nodeCount y).size = g.nodeCapacity
        rw [JArr.size_set]
        exact s2
      · show (g.nodeVX.set g.nodeCount 0).size = g.nodeCapacity
        rw [JArr.size_set]
        exact s3
      · show (g.nodeVY.set g.nodeCount 0).size = g.nodeCapacity
        rw [JArr.size_set]
        exact s4
      · show g.nodeCount + 1 ≤ g.nodeCapacity
        omega
    · rw [addNode_eq_resize g x y (by omega)]
      refine ⟨?_, ?_, ?_, ?_, s5, s6, ?_, s8, ?_, s10⟩
      · show ((g.nodeX.grow 0 (g.nodeCapacity * 2)).set g.nodeCount x).size =
          g.nodeCapacity * 2
        rw [JArr.size_set, JArr.size_grow]
      · show ((g.nodeY.grow 0 (g.nodeCapacity * 2)).set g.nodeCount y).size =
          g.nodeCapacity * 2
        rw [JArr.size_set, JArr.size_grow]
      · show ((g.nodeVX.grow 0 (g.nodeCapacity * 2)).set g.nodeCount 0).size =
          g.nodeCapacity * 2
        rw [JArr.size_set, JArr.size_grow]
      · show ((g.nodeVY.grow 0 (g.nodeCapacity * 2)).set g.nodeCount 0).size =
          g.nodeCapacity * 2
        rw [JArr.size_set, JArr.size_grow]
      · show g.nodeCount + 1 ≤ g.nodeCapacity * 2
        omega
      · show 0 < g.nodeCapacity * 2
        omega
  · obtain ⟨hinv1, hinv2⟩ := hinv
    constructor
    · intro i hi
      have hi' : i < g.edgeCount := by rw [hecnt] at hi; exact hi
      obtain ⟨hne, hb1, hb2⟩ := hinv1 i hi'
      obtain ⟨he1, he2⟩ := hedges i
      rw [he1, he2, hcnt]
      exact ⟨hne, by omega, by omega⟩
    · intro i j hij hj
      have hj' : j < g.edgeCount := by rw [hecnt] at hj; exact hj
      obtain ⟨hi1, hi2⟩ := hedges i
      obtain ⟨hj1, hj2⟩ := hedges j
      rw [hi1, hi2, hj1, hj2]
      exact hinv2 i j hij hj'

theorem wf_updateNode (g : GraphState) (i : Int) (x y : Int) (hwf : ArenaWf g) :
    ArenaWf (g.updateNode i x y).1 := by
  by_cases h : i < 0 ∨ (g.nodeCount : Int) ≤ i
  · rw [updateNode_out_of_range g i x y h]
    exact hwf
  · push_neg at h
    have hn : i.toNat < g.nodeCount := by omega
    have hi : i = ((i.toNat : Nat) : Int) := by omega
    rw [hi, updateNode_valid_eq g i.toNat x y hn]
    obtain ⟨⟨s1, s2, s3, s4, s5, s6, s7, s8, s9, s10⟩, hinv⟩ := hwf
    refine ⟨⟨?_, ?_, s3, s4, s5, s6, s7, s8, s9, s10⟩, hinv⟩
    · show (g.nodeX.set i.toNat x).size = g.nodeCapacity
      rw [JArr.size_set]
      exact s1
    · show (g.nodeY.set i.toNat y).size = g.nodeCapacity
      rw [JArr.size_set]
      exact s2

/-- List form of the edge invariant. -/
theorem edgeListInv_of (g : GraphState) (hinv : EdgeInvariant g) :
    (∀ e ∈ edgePairs g, e.1 ≠ e.2 ∧ e.1 < g.nodeCount ∧ e.2 < g.nodeCount) ∧
      (edgePairs g).Pairwise (fun e f => ¬ samePair e f) :=
  (edgeInvariant_iff g).mp hinv

theorem edgeInvariant_of_list (g : GraphState)
    (h : (∀ e ∈ edgePairs g, e.1 ≠ e.2 ∧ e.1 < g.nodeCount ∧ e.2 < g.nodeCount) ∧
      (edgePairs g).Pairwise (fun e f => ¬ samePair e f)) : EdgeInvariant g :=
  (edgeInvariant_iff g).mpr h

theorem wf_removeEdge (g : GraphState) (i : Int) (hwf : ArenaWf g) :
    ArenaWf (g.removeEdge i).1 := by
  by_cases h : i < 0 ∨ (g.edgeCount : Int) ≤ i
  · rw [removeEdge_out_of_range g i h]
    exact hwf
  · push_neg at h
    have hk : i.toNat < g.edgeCount := by omega
    have hi : i = ((i.toNat : Nat) : Int) := by omega
    obtain ⟨⟨s1, s2, s3, s4, s5, s6, s7, s8, s9, s10⟩, hinv⟩ := hwf
    set k := i.toNat with hkdef
    rw [hi]
    have hperm := edgePairs_removeEdge g k hk (by omega) (by omega)
    have hsub : List.Sublist ((edgePairs g).eraseIdx k) (edgePairs g) :=
      List.eraseIdx_sublist _ k
    obtain ⟨hl1, hl2⟩ := edgeListInv_of g hinv
    constructor
    · by_cases hkl : k = g.edgeCount - 1
      · rw [hkl, removeEdge_last_eq g (by omega)]
        exact ⟨s1, s2, s3, s4, s5, s6, s7, show g.edgeCount - 1 ≤ g.edgeCapacity by omega,
          s9, s10⟩
      · rw [removeEdge_swap_eq g k (by omega)]
        refine ⟨s1, s2, s3, s4, ?_, ?_, s7,
          show g.edgeCount - 1 ≤ g.edgeCapacity by omega, s9, s10⟩
        · show (g.edgeSource.set k (g.edgeSource.get (g.edgeCount - 1) 0)).size =
            g.edgeCapacity
          rw [JArr.size_set]
          exact s5
        · show (g.edgeTarget.set k (g.edgeTarget.get (g.edgeCount - 1) 0)).size =
            g.edgeCapacity
          rw [JArr.size_set]
          exact s6
    · apply edgeInvariant_of_list
      have hcnt : (g.removeEdge ((k : Nat) : Int)).1.nodeCount = g.nodeCount := by
        by_cases hkl : k = g.edgeCount - 1
        · rw [hkl, removeEdge_last_eq g (by omega)]
        · rw [removeEdge_swap_eq g k (by omega)]
      constructor
      · intro e he
        have : e ∈ (edgePairs g).eraseIdx k := hperm.mem_iff.mp he
        have := hl1 e (hsub.subset this)
        rw [hcnt]
        exact this
      · exact (hperm.pairwise_iff fun hxy => fun hs => hxy (samePair_symm hs)).mpr
          (hl2.sublist hsub)

theorem wf_addEdge (g : GraphState) (s t : Int) (hwf : ArenaWf g) :
    ArenaWf (g.addEdge s t).1 := by
  by_cases h1 : s < 0 ∨ (g.nodeCount : Int) ≤ s
  · rw [addEdge_fail g s t (by tauto)]
    exact hwf
  by_cases h2 : t < 0 ∨ (g.nodeCount : Int) ≤ t
  · rw [addEdge_fail g s t (by tauto)]
    exact hwf
  by_cases h3 : s = t
  · rw [addEdge_fail g s t (by tauto)]
    exact hwf
  by_cases h4 : g.hasEdge s t = true
  · rw [addEdge_fail g s t (by tauto)]
    exact hwf
  push_neg at h1 h2
  obtain ⟨⟨s1, s2, s3, s4, s5, s6, s7, s8, s9, s10⟩, hinv⟩ := hwf
  have hsn : s.toNat < g.nodeCount := by omega
  have htn : t.toNat < g.nodeCount := by omega
  have hst : s.toNat ≠ t.toNat := by omega
  have hseq : s = ((s.toNat : Nat) : Int) := by omega
  have hteq : t = ((t.toNat : Nat) : Int) := by omega
  rw [hseq, hteq] at h4 ⊢
  have hdup : g.hasEdge ((s.toNat : Nat) : Int) ((t.toNat : Nat) : Int) = false := by
    rcases Bool.eq_false_or_eq_true (g.hasEdge ((s.toNat : Nat) : Int) ((t.toNat : Nat) : Int))
      with hb | hb
    · exact absurd hb h4
    · exact hb
  obtain ⟨hsnd, hcnt, hv, ⟨nx, ny, nvx, nvy, ncnt, ncap⟩, hssz, htsz, hcle, hcpos, hpairs⟩ :=
    addEdge_valid_spec g s.toNat t.toNat hsn htn hst hdup s5 s6 s8 s10
  constructor
  · exact ⟨by rw [nx, ncap]; exact s1, by rw [ny, ncap]; exact s2,
      by rw [nvx, ncap]; exact s3, by rw [nvy, ncap]; exact s4, hssz, htsz,
      by rw [ncnt, ncap]; exact s7, hcle, by rw [ncap]; exact s9, hcpos⟩
  · apply edgeInvariant_of_list
    rw [hpairs, ncnt]
    obtain ⟨hl1, hl2⟩ := edgeListInv_of g hinv
    constructor
    · intro e he
      rcases List.mem_append.mp he with he | he
      · exact hl1 e he
      · rw [List.mem_singleton.mp he]
        exact ⟨hst, hsn, htn⟩
    · rw [List.pairwise_append]
      refine ⟨hl2, List.pairwise_singleton _ _, ?_⟩
      intro e he f hf
      rw [List.mem_singleton.mp hf]
      intro hsp
      have : g.hasEdge ((s.toNat : Nat) : Int) ((t.toNat : Nat) : Int) = true :=
        (hasEdge_iff_samePair g s.toNat t.toNat).mpr ⟨e, he, hsp⟩
      rw [hdup] at this
      exact Bool.false_ne_true this

theorem wf_removeNode (g : GraphState) (i : Int) (hwf : ArenaWf g) :
    ArenaWf (g.removeNode i).1 := by
  by_cases h : i < 0 ∨ (g.nodeCount : Int) ≤ i
  · rw [removeNode_out_of_range g i h]
    exact hwf
  · push_neg at h
    obtain ⟨⟨s1, s2, s3, s4, s5, s6, s7, s8, s9, s10⟩, hinv⟩ := hwf
    have hn : i.toNat < g.nodeCount := by omega
    have hi : i = ((i.toNat : Nat) : Int) := by omega
    set n := i.toNat with hndef
    rw [hi]
    obtain ⟨hsnd, hcnt, hncap, hecap, hssz, htsz, hnxs, hnys, hnvxs, hnvys, hver, hccnt,
      hperm, hlastcase⟩ := removeNode_valid_spec g n hn (by omega) (by omega)
    obtain ⟨hl1, hl2⟩ := edgeListInv_of g hinv
    constructor
    · refine ⟨by rw [hnxs, hncap]; exact s1, by rw [hnys, hncap]; exact s2,
        by rw [hnvxs, hncap]; exact s3, by rw [hnvys, hncap]; exact s4,
        by rw [hssz, hecap]; exact s5, by rw [htsz, hecap]; exact s6,
        by rw [hcnt, hncap]; omega, ?_, by rw [hncap]; exact s9, by rw [hecap]; exact s10⟩
      · rw [hccnt, hecap]
        calc ((edgePairs g).filter fun e => !(decide (incidentTo n e))).length
            ≤ (edgePairs g).length := List.length_filter_le _ _
          _ = g.edgeCount := length_edgePairs g
          _ ≤ g.edgeCapacity := s8
    · apply edgeInvariant_of_list
      rw [hcnt]
      have hmem : ∀ e ∈ edgePairs (g.removeNode ((n : Nat) : Int)).1,
          ∃ f ∈ edgePairs g, f.1 ≠ n ∧ f.2 ≠ n ∧
            e = (remapVal (g.nodeCount - 1) n f.1, remapVal (g.nodeCount - 1) n f.2) := by
        intro e he
        have := hperm.mem_iff.mp he
        rw [List.mem_map] at this
        obtain ⟨f, hf, rfl⟩ := this
        rw [List.mem_filter] at hf
        obtain ⟨hfm, hfp⟩ := hf
        have hfni : ¬ incidentTo n f := by simpa using hfp
        rw [incidentTo] at hfni
        push_neg at hfni
        exact ⟨f, hfm, hfni.1, hfni.2, rfl⟩
      constructor
      · intro e he
        obtain ⟨f, hfm, hf1, hf2, rfl⟩ := hmem e he
        obtain ⟨hne, hb1, hb2⟩ := hl1 f hfm
        refine ⟨?_, remapVal_lt g.nodeCount n f.1 hb1 hf1 hn,
          remapVal_lt g.nodeCount n f.2 hb2 hf2 hn⟩
        intro hcontra
        exact hne (remapVal_inj g.nodeCount n f.1 f.2 hf1 hf2 hcontra)
      · refine (hperm.pairwise_iff fun hxy => fun hs => hxy (samePair_symm hs)).mpr ?_
        rw [List.pairwise_map]
        have hpw : ((edgePairs g).filter fun e => !(decide (incidentTo n e))).Pairwise
            (fun e f => ¬ samePair e f) := hl2.sublist (List.filter_sublist _)
        refine hpw.imp_of_mem ?_
        intro a b ha hb hab hsp
        rw [List.mem_filter] at ha hb
        have hani : ¬ incidentTo n a := by simpa using ha.2
        have hbni : ¬ incidentTo n b := by simpa using hb.2
        rw [incidentTo] at hani hbni
        push_neg at hani hbni
        exact hab (samePair_of_remap n g.nodeCount a b hani.1 hani.2 hbni.1 hbni.2 hsp)

/-- Every state reachable through the five arena mutations is
well-formed. -/
theorem reachableArena_wf (g : GraphState) (h : ReachableArena g) : ArenaWf g := by
  induction h with
  | init ncap ecap hn he => exact wf_mkGraphState ncap ecap hn he
  | addNode g x y _ ih => exact wf_addNode g x y ih
  | removeNode g i _ ih => exact wf_removeNode g i ih
  | updateNode g i x y _ ih => exact wf_updateNode g i x y ih
  | addEdge g s t _ ih => exact wf_addEdge g s t ih
  | removeEdge g i _ ih => exact wf_removeEdge g i ih

end GraphState

namespace GraphState

theorem addNode_version (g : GraphState) (x y : Int) :
    (g.addNode x y).1.version = g.version + 1 :=
  (addNode_spec g x y).2.2.1

theorem updateNode_version (g : GraphState) (i : Int) (x y : Int) :
    ((g.updateNode i x y).2 = true → (g.updateNode i x y).1.version = g.version + 1) ∧
    ((g.updateNode i x y).2 = false → (g.updateNode i x y).1.version = g.version) := by
  by_cases h : i < 0 ∨ (g.nodeCount : Int) ≤ i
  · rw [updateNode_out_of_range g i x y h]
    exact ⟨fun hc => absurd hc (by simp), fun _ => rfl⟩
  · push_neg at h
    have hn : i.toNat < g.nodeCount := by omega
    have hi : i = ((i.toNat : Nat) : Int) := by omega
    rw [hi, updateNode_valid_eq g i.toNat x y hn]
    exact ⟨fun _ => rfl, fun hc => absurd hc (by simp)⟩

theorem removeEdge_version (g : GraphState) (i : Int) :
    ((g.removeEdge i).2 = true → (g.removeEdge i).1.version = g.version + 1) ∧
    ((g.removeEdge i).2 = false → (g.removeEdge i).1.version = g.version) := by
  by_cases h : i < 0 ∨ (g.edgeCount : Int) ≤ i
  · rw [removeEdge_out_of_range g i h]
    exact ⟨fun hc => absurd hc (by simp), fun _ => rfl⟩
  · push_neg at h
    have hk : i.toNat < g.edgeCount := by omega
    have hi : i = ((i.toNat : Nat) : Int) := by omega
    rw [hi]
    by_cases hkl : i.toNat = g.edgeCount - 1
    · rw [hkl, removeEdge_last_eq g (by omega)]
      exact ⟨fun _ => rfl, fun hc => absurd hc (by simp)⟩
    · rw [removeEdge_swap_eq g i.toNat (by omega)]
      exact ⟨fun _ => rfl, fun hc => absurd hc (by simp)⟩

theorem addEdge_version (g : GraphState) (s t : Int) :
    ((g.addEdge s t).2 ≠ -1 → (g.addEdge s t).1.version = g.version + 1) ∧
    ((g.addEdge s t).2 = -1 → (g.addEdge s t).1.version = g.version) := by
  by_cases h1 : s < 0 ∨ (g.nodeCount : Int) ≤ s
  · rw [addEdge_fail g s t (by tauto)]
    exact ⟨fun hc => absurd rfl hc, fun _ => rfl⟩
  by_cases h2 : t < 0 ∨ (g.nodeCount : Int) ≤ t
  · rw [addEdge_fail g s t (by tauto)]
    exact ⟨fun hc => absurd rfl hc, fun _ => rfl⟩
  by_cases h3 : s = t
  · rw [addEdge_fail g s t (by tauto)]
    exact ⟨fun hc => absurd rfl hc, fun _ => rfl⟩
  by_cases h4 : g.hasEdge s t = true
  · rw [addEdge_fail g s t (by tauto)]
    exact ⟨fun hc => absurd rfl hc, fun _ => rfl⟩
  have hr : g.addEdge s t =
      (let g1 := if g.edgeCapacity ≤ g.edgeCount then g.resizeEdges (g.edgeCapacity * 2) else g
       ({ g1 with
          edgeSource := g1.edgeSource.set g1.edgeCount s.toNat
          edgeTarget := g1.edgeTarget.set g1.edgeCount t.toNat
          edgeCount := g1.edgeCount + 1
          version := g1.version + 1 }, (g1.edgeCount : Int))) := by
    unfold addEdge
    rw [if_neg h1, if_neg h2, if_neg h3, if_neg (by rw [Bool.not_eq_true] at h4; rw [h4]; exact
      Bool.false_ne_true)]
  rw [hr]
  dsimp only
  constructor
  · intro _
    split
    · rfl
    · rfl
  · intro hc
    exfalso
    split at hc
    · have : (0 : Int) ≤ ((g.resizeEdges (g.edgeCapacity * 2)).edgeCount : Int) :=
        Int.natCast_nonneg _
      omega
    · have : (0 : Int) ≤ (g.edgeCount : Int) := Int.natCast_nonneg _
      omega

theorem removeEdgesForNodeLoop_version (n : Nat) : ∀ (k : Nat) (g : GraphState),
    g.version ≤ (removeEdgesForNodeLoop n k g).version
  | 0, g => by
    rw [removeEdgesForNodeLoop]
  | k + 1, g => by
    rw [removeEdgesForNodeLoop]
    split
    · refine Nat.le_trans ?_ (removeEdgesForNodeLoop_version n k (g.removeEdge (k : Int)).1)
      obtain ⟨hv1, hv2⟩ := removeEdge_version g (k : Int)
      rcases Bool.eq_false_or_eq_true (g.removeEdge (k : Int)).2 with hb | hb
      · rw [hv1 hb]
        omega
      · rw [hv2 hb]
    · exact removeEdgesForNodeLoop_version n k g

theorem remapLoop_version (o m : Nat) : ∀ (k : Nat) (g : GraphState),
    (remapLoop o m k g).version = g.version
  | 0, g => by rw [remapLoop]
  | k + 1, g => by
    rw [remapLoop]
    have ih := remapLoop_version o m k g
    split
    · split
      · exact ih
      · exact ih
    · split
      · exact ih
      · exact ih

theorem removeNode_version (g : GraphState) (i : Int) :
    ((g.removeNode i).2 = true → g.version < (g.removeNode i).1.version) ∧
    ((g.removeNode i).2 = false → (g.removeNode i).1.version = g.version) := by
  by_cases h : i < 0 ∨ (g.nodeCount : Int) ≤ i
  · rw [removeNode_out_of_range g i h]
    exact ⟨fun hc => absurd hc (by simp), fun _ => rfl⟩
  · push_neg at h
    have hn : i.toNat < g.nodeCount := by omega
    have hr : g.removeNode i =
        (let g1 := g.removeEdgesForNode i.toNat
         let lastIdx := g1.nodeCount - 1
         let g2 :=
          if i.toNat ≠ lastIdx then
            let gm :=
              { g1 with
                nodeX := g1.nodeX.set i.toNat (g1.nodeX.get lastIdx 0)
                nodeY := g1.nodeY.set i.toNat (g1.nodeY.get lastIdx 0)
                nodeVX := g1.nodeVX.set i.toNat (g1.nodeVX.get lastIdx 0)
                nodeVY := g1.nodeVY.set i.toNat (g1.nodeVY.get lastIdx 0) }
            gm.remapNodeIndex lastIdx i.toNat
          else g1
         ({ g2 with nodeCount := g2.nodeCount - 1, version := g2.version + 1 }, true)) := by
      unfold removeNode
      rw [if_neg (by push_neg; exact h)]
    rw [hr]
    dsimp only
    refine ⟨fun _ => ?_, fun hc => absurd hc (by simp)⟩
    have hc1 : g.version ≤ (g.removeEdgesForNode i.toNat).version :=
      removeEdgesForNodeLoop_version i.toNat g.edgeCount g
    split
    · rw [remapNodeIndex, remapLoop_version]
      show g.version < (g.removeEdgesForNode i.toNat).version + 1
      omega
    · omega

theorem loadNodesLoop_version (xs : List (Int × Int)) : ∀ (k : Nat) (g : GraphState),
    (loadNodesLoop xs k g).version = g.version
  | 0, g => by rw [loadNodesLoop]
  | k + 1, g => by
    rw [loadNodesLoop]
    exact loadNodesLoop_version xs k g

theorem loadEdgesLoop_version (es : List (Nat × Nat)) : ∀ (k : Nat) (g : GraphState),
    (loadEdgesLoop es k g).version = g.version
  | 0, g => by rw [loadEdgesLoop]
  | k + 1, g => by
    rw [loadEdgesLoop]
    exact loadEdgesLoop_version es k g

theorem loadFromArrow_version (g : GraphState) (nodes : List (Int × Int))
    (edges : List (Nat × Nat)) : (g.loadFromArrow nodes edges).version = g.version + 1 := by
  unfold loadFromArrow
  dsimp only
  rw [loadEdgesLoop_version]
  split
  · rw [loadNodesLoop_version]
    split
    · rfl
    · rfl
  · rw [loadNodesLoop_version]
    split
    · rfl
    · rfl

/-- Any single arena step never decreases the version. -/
theorem arenaStep_version_le (g g' : GraphState) (h : ArenaStep g g') :
    g.version ≤ g'.version := by
  cases h with
  | addNode x y => rw [addNode_version]; omega
  | removeNode i =>
    obtain ⟨h1, h2⟩ := removeNode_version g i
    rcases Bool.eq_false_or_eq_true (g.removeNode i).2 with hb | hb
    · exact Nat.le_of_lt (h1 hb)
    · rw [h2 hb]
  | updateNode i x y =>
    obtain ⟨h1, h2⟩ := updateNode_version g i x y
    rcases Bool.eq_false_or_eq_true (g.updateNode i x y).2 with hb | hb
    · rw [h1 hb]; omega
    · rw [h2 hb]
  | addEdge s t =>
    obtain ⟨h1, h2⟩ := addEdge_version g s t
    by_cases hb : (g.addEdge s t).2 = -1
    · rw [h2 hb]
    · rw [h1 hb]; omega
  | removeEdge i =>
    obtain ⟨h1, h2⟩ := removeEdge_version g i
    rcases Bool.eq_false_or_eq_true (g.removeEdge i).2 with hb | hb
    · rw [h1 hb]; omega
    · rw [h2 hb]
  | loadFromArrow nodes edges => rw [loadFromArrow_version]; omega

end GraphState

namespace GraphState

theorem le_foldr_max (l : List Nat) (a : Nat) : a ≤ l.foldr max a := by
  induction l with
  | nil => exact Nat.le_refl a
  | cons c l ih => exact Nat.le_trans ih (Nat.le_max_right c _)

theorem foldr_max_max (l : List Nat) (a b : Nat) :
    l.foldr max (max a b) = max a (l.foldr max b) := by
  induction l with
  | nil => rfl
  | cons c l ih =>
    show max c (l.foldr max (max a b)) = max a (max c (l.foldr max b))
    rw [ih]
    omega

/-- Invariant proof of the selection loop of `findGiantComponent`: the
final size is the running maximum, and when some element beats the
initial best the returned id is the offset of the first maximal
element. -/
theorem sgLoop_spec : ∀ (l : List Nat) (i gid gsz : Nat),
    (sgLoop l i gid gsz).2 = l.foldr max gsz ∧
    ((∀ s ∈ l, s ≤ gsz) → sgLoop l i gid gsz = (gid, gsz)) ∧
    ((∃ s ∈ l, gsz < s) → ∃ j, j < l.length ∧ (sgLoop l i gid gsz).1 = i + j ∧
      l.getD j 0 = (sgLoop l i gid gsz).2 ∧
      (∀ j2, j2 < j → l.getD j2 0 < (sgLoop l i gid gsz).2) ∧
      gsz < (sgLoop l i gid gsz).2)
  | [], i, gid, gsz => by
    refine ⟨rfl, fun _ => rfl, fun hex => ?_⟩
    obtain ⟨s, hs, _⟩ := hex
    exact absurd hs (List.not_mem_nil s)
  | c :: l, i, gid, gsz => by
    rw [sgLoop]
    by_cases hc : gsz < c
    · rw [if_pos hc]
      obtain ⟨ih1, ih2, ih3⟩ := sgLoop_spec l (i + 1) i c
      refine ⟨?_, ?_, ?_⟩
      · rw [ih1]
        show l.foldr max c = (c :: l).foldr max gsz
        have hmc : max c gsz = c := by omega
        calc l.foldr max c = l.foldr max (max c gsz) := by rw [hmc]
          _ = max c (l.foldr max gsz) := foldr_max_max l c gsz
          _ = (c :: l).foldr max gsz := rfl
      · intro hall
        exact absurd (hall c (List.mem_cons_self c l)) (by omega)
      · intro _
        by_cases hrest : ∃ s ∈ l, c < s
        · obtain ⟨j, hj1, hj2, hj3, hj4, hj5⟩ := ih3 hrest
          refine ⟨j + 1, by simpa using hj1, by omega, by simpa using hj3, ?_, by omega⟩
          intro j2 hj2lt
          cases j2 with
          | zero =>
            show c < (sgLoop l (i + 1) i c).2
            exact hj5
          | succ j3 =>
            show l.getD j3 0 < (sgLoop l (i + 1) i c).2
            exact hj4 j3 (by omega)
        · push_neg at hrest
          rw [ih2 hrest]
          refine ⟨0, by simp, by omega, rfl, ?_, hc⟩
          intro j2 hj2lt
          exact absurd hj2lt (Nat.not_lt_zero j2)
    · rw [if_neg hc]
      obtain ⟨ih1, ih2, ih3⟩ := sgLoop_spec l (i + 1) gid gsz
      refine ⟨?_, ?_, ?_⟩
      · rw [ih1]
        show l.foldr max gsz = max c (l.foldr max gsz)
        have : c ≤ l.foldr max gsz := Nat.le_trans (by omega) (le_foldr_max l gsz)
        omega
      · intro hall
        exact ih2 fun s hs => hall s (List.mem_cons_of_mem c hs)
      · intro hex
        obtain ⟨s, hs, hslt⟩ := hex
        rcases List.mem_cons.mp hs with hsc | hsl
        · omega
        · obtain ⟨j, hj1, hj2, hj3, hj4, hj5⟩ := ih3 ⟨s, hsl, hslt⟩
          refine ⟨j + 1, by simpa using hj1, by omega, by simpa using hj3, ?_, hj5⟩
          intro j2 hj2lt
          cases j2 with
          | zero =>
            show c < (sgLoop l (i + 1) gid gsz).2
            omega
          | succ j3 =>
            show l.getD j3 0 < (sgLoop l (i + 1) gid gsz).2
            exact hj4 j3 (by omega)

end GraphState

namespace GraphState

theorem fnnLt_mono (d d2 : Int) (b : Option Int) (h : d ≤ d2) (h2 : fnnLt d2 b = true) :
    fnnLt d b = true := by
  cases b with
  | none => rfl
  | some m =>
    simp only [fnnLt, decide_eq_true_eq] at h2 ⊢
    omega

/-- Invariant proof of the scan of `findNearestNode`: after processing
indices `0 … k-1` either no candidate was within the bound and the
accumulator is untouched, or the accumulator holds the first
closest-so-far candidate. -/
theorem fnnLoop_spec (g : GraphState) (x y : Int) (init : Option Int) : ∀ (k : Nat),
    (fnnLoop g x y k (-1, init) = (-1, init) ∧
      ∀ j, j < k → fnnLt (g.nodeDistSq x y j) init = false) ∨
    (∃ jb, jb < k ∧ fnnLoop g x y k (-1, init) = ((jb : Int), some (g.nodeDistSq x y jb)) ∧
      fnnLt (g.nodeDistSq x y jb) init = true ∧
      ∀ j, j < k → g.nodeDistSq x y jb ≤ g.nodeDistSq x y j)
  | 0 => Or.inl ⟨rfl, fun j hj => absurd hj (Nat.not_lt_zero j)⟩
  | k + 1 => by
    rw [fnnLoop]
    rcases fnnLoop_spec g x y init k with ⟨hacc, hall⟩ | ⟨jb, hjb, hacc, hlt, hmin⟩
    · rw [hacc]
      by_cases hnew : fnnLt (g.nodeDistSq x y k) init = true
      · rw [if_pos hnew]
        refine Or.inr ⟨k, by omega, rfl, hnew, ?_⟩
        intro j hj
        rcases Nat.lt_succ_iff_lt_or_eq.mp hj with hjk | hjk
        · -- j was scanned earlier and was not within the bound
          cases init with
          | none => exact absurd (hall j hjk) (by simp [fnnLt])
          | some m =>
            have h1 := hall j hjk
            simp only [fnnLt, decide_eq_false_iff_not] at h1
            simp only [fnnLt, decide_eq_true_eq] at hnew
            omega
        · rw [hjk]
      · rw [if_neg hnew]
        refine Or.inl ⟨rfl, ?_⟩
        intro j hj
        rcases Nat.lt_succ_iff_lt_or_eq.mp hj with hjk | hjk
        · exact hall j hjk
        · rw [hjk]
          exact Bool.not_eq_true _ ▸ (by simpa using hnew)
    · rw [hacc]
      by_cases hnew : fnnLt (g.nodeDistSq x y k) (some (g.nodeDistSq x y jb)) = true
      · rw [if_pos hnew]
        simp only [fnnLt, decide_eq_true_eq] at hnew
        refine Or.inr ⟨k, by omega, rfl, fnnLt_mono _ _ _ (by omega) hlt, ?_⟩
        intro j hj
        rcases Nat.lt_succ_iff_lt_or_eq.mp hj with hjk | hjk
        · have := hmin j hjk
          omega
        · rw [hjk]
      · rw [if_neg hnew]
        simp only [fnnLt, decide_eq_true_eq] at hnew
        push_neg at hnew
        refine Or.inr ⟨jb, by omega, rfl, hlt, ?_⟩
        intro j hj
        rcases Nat.lt_succ_iff_lt_or_eq.mp hj with hjk | hjk
        · exact hmin j hjk
        · rw [hjk]
          exact hnew

end GraphState

namespace GraphState

set_option maxHeartbeats 1000000 in
/-- As long as the insertions fit the existing capacity, `addNode` never
resizes: capacity is unchanged, the returned indices are consecutive, and
all values are stored. -/
theorem insertSeq_no_resize : ∀ (xs : List (Int × Int)) (g : GraphState),
    g.nodeCount + xs.length ≤ g.nodeCapacity →
    g.nodeX.size = g.nodeCapacity → g.nodeY.size = g.nodeCapacity →
    g.nodeVX.size = g.nodeCapacity → g.nodeVY.size = g.nodeCapacity →
    (insertSeq g xs).1.nodeCapacity = g.nodeCapacity ∧
    (insertSeq g xs).1.nodeCount = g.nodeCount + xs.length ∧
    (insertSeq g xs).2 = List.range' g.nodeCount xs.length ∧
    (insertSeq g xs).1.nodeX.size = g.nodeCapacity ∧
    (insertSeq g xs).1.nodeY.size = g.nodeCapacity ∧
    (insertSeq g xs).1.nodeVX.size = g.nodeCapacity ∧
    (insertSeq g xs).1.nodeVY.size = g.nodeCapacity ∧
    (∀ i, i < g.nodeCount → (insertSeq g xs).1.nodeX.get i 0 = g.nodeX.get i 0 ∧
      (insertSeq g xs).1.nodeY.get i 0 = g.nodeY.get i 0) ∧
    (∀ j, j < xs.length →
      (insertSeq g xs).1.nodeX.get (g.nodeCount + j) 0 = (xs.getD j (0, 0)).1 ∧
      (insertSeq g xs).1.nodeY.get (g.nodeCount + j) 0 = (xs.getD j (0, 0)).2)
  | [], g, hfit, h1, h2, h3, h4 => by
    rw [insertSeq]
    exact ⟨rfl, rfl, rfl, h1, h2, h3, h4, fun i _ => ⟨rfl, rfl⟩,
      fun j hj => absurd hj (Nat.not_lt_zero j)⟩
  | p :: rest, g, hfit, h1, h2, h3, h4 => by
    have hlen : (p :: rest).length = rest.length + 1 := rfl
    have hlt : g.nodeCount < g.nodeCapacity := by
      rw [hlen] at hfit
      omega
    have hseq : insertSeq g (p :: rest) =
        ((insertSeq (g.addNode p.1 p.2).1 rest).1,
          (g.addNode p.1 p.2).2 :: (insertSeq (g.addNode p.1 p.2).1 rest).2) := by
      rw [insertSeq]
    rw [hseq]
    rw [addNode_eq_no_resize g p.1 p.2 hlt]
    set gm :=
      { g with
        nodeX := g.nodeX.set g.nodeCount p.1
        nodeY := g.nodeY.set g.nodeCount p.2
        nodeVX := g.nodeVX.set g.nodeCount 0
        nodeVY := g.nodeVY.set g.nodeCount 0
        nodeCount := g.nodeCount + 1
        version := g.version + 1 } with hgm
    have hsx : gm.nodeX.size = g.nodeCapacity := by
      show (g.nodeX.set g.nodeCount p.1).size = g.nodeCapacity
      rw [JArr.size_set]
      exact h1
    have hsy : gm.nodeY.size = g.nodeCapacity := by
      show (g.nodeY.set g.nodeCount p.2).size = g.nodeCapacity
      rw [JArr.size_set]
      exact h2
    have hsvx : gm.nodeVX.size = g.nodeCapacity := by
      show (g.nodeVX.set g.nodeCount 0).size = g.nodeCapacity
      rw [JArr.size_set]
      exact h3
    have hsvy : gm.nodeVY.size = g.nodeCapacity := by
      show (g.nodeVY.set g.nodeCount 0).size = g.nodeCapacity
      rw [JArr.size_set]
      exact h4
    have hgmcount : gm.nodeCount = g.nodeCount + 1 := rfl
    have hgmcap : gm.nodeCapacity = g.nodeCapacity := rfl
    obtain ⟨ic, icnt, iidx, is1, is2, is3, is4, iold, inew⟩ :=
      insertSeq_no_resize rest gm
        (by rw [hgmcount, hgmcap]; rw [hlen] at hfit; omega)
        (by rw [hgmcap]; exact hsx) (by rw [hgmcap]; exact hsy)
        (by rw [hgmcap]; exact hsvx) (by rw [hgmcap]; exact hsvy)
    rw [hgmcap] at ic is1 is2 is3 is4
    refine ⟨ic, ?_, ?_, is1, is2, is3, is4, ?_, ?_⟩
    · rw [icnt, hgmcount, hlen]
      omega
    · show (g.nodeCount : Nat) :: (insertSeq gm rest).2 = List.range' g.nodeCount (p :: rest).length
      rw [iidx, hgmcount, hlen]
      rfl
    · intro i hi
      obtain ⟨ox, oy⟩ := iold i (by rw [hgmcount]; omega)
      rw [ox, oy]
      constructor
      · show (g.nodeX.set g.nodeCount p.1).get i 0 = g.nodeX.get i 0
        exact JArr.get_set_ne _ _ _ _ _ (by omega)
      · show (g.nodeY.set g.nodeCount p.2).get i 0 = g.nodeY.get i 0
        exact JArr.get_set_ne _ _ _ _ _ (by omega)
    · intro j hj
      cases j with
      | zero =>
        obtain ⟨ox, oy⟩ := iold g.nodeCount (by rw [hgmcount]; omega)
        rw [Nat.add_zero, ox, oy]
        constructor
        · show (g.nodeX.set g.nodeCount p.1).get g.nodeCount 0 = ((p :: rest).getD 0 (0, 0)).1
          rw [JArr.get_set_self _ _ _ _ (by omega), List.getD_cons_zero]
        · show (g.nodeY.set g.nodeCount p.2).get g.nodeCount 0 = ((p :: rest).getD 0 (0, 0)).2
          rw [JArr.get_set_self _ _ _ _ (by omega), List.getD_cons_zero]
      | succ j2 =>
        have hj2 : j2 < rest.length := by
          rw [hlen] at hj
          omega
        obtain ⟨nx, ny⟩ := inew j2 hj2
        rw [hgmcount] at nx ny
        have harith : g.nodeCount + (j2 + 1) = g.nodeCount + 1 + j2 := by omega
        rw [harith, nx, ny]
        constructor
        · show (rest.getD j2 (0, 0)).1 = ((p :: rest).getD (j2 + 1) (0, 0)).1
          rw [List.getD_cons_succ]
        · show (rest.getD j2 (0, 0)).2 = ((p :: rest).getD (j2 + 1) (0, 0)).2
          rw [List.getD_cons_succ]

theorem insertSeq_append : ∀ (ys : List (Int × Int)) (g : GraphState) (z : Int × Int),
    insertSeq g (ys ++ [z]) =
      (((insertSeq g ys).1.addNode z.1 z.2).1,
        (insertSeq g ys).2 ++ [((insertSeq g ys).1.addNode z.1 z.2).2])
  | [], g, z => by
    rw [List.nil_append]
    rw [insertSeq, insertSeq, insertSeq]
    simp
  | p :: ys, g, z => by
    have h1 : insertSeq g ((p :: ys) ++ [z]) =
        ((insertSeq (g.addNode p.1 p.2).1 (ys ++ [z])).1,
          (g.addNode p.1 p.2).2 :: (insertSeq (g.addNode p.1 p.2).1 (ys ++ [z])).2) := by
      rw [List.cons_append, insertSeq]
    have h2 : insertSeq g (p :: ys) =
        ((insertSeq (g.addNode p.1 p.2).1 ys).1,
          (g.addNode p.1 p.2).2 :: (insertSeq (g.addNode p.1 p.2).1 ys).2) := by
      rw [insertSeq]
    rw [h1, h2, insertSeq_append ys (g.addNode p.1 p.2).1 z]
    simp

end GraphState

/-!
## Claims
-/

open GraphState

/-- C1: in every reachable `GraphState` (reached from a freshly
constructed arena, whose capacities are positive as at every construction
site in the repository, through `addNode`, `addEdge`, `removeEdge`,
`updateNode` and `removeNode` with its cascade and remapping), every
stored edge `i < edgeCount` has `edgeSource[i] ≠ edgeTarget[i]`, both
endpoints in `[0, nodeCount)`, and no two stored edges share an unordered
endpoint pair. -/
theorem claim_C1_edge_invariant (g : GraphState) (h : ReachableArena g) :
    EdgeInvariant g :=
  (reachableArena_wf g h).2

/-- Witness for C1 at a concrete reachable arena: three nodes and the
edge `(0, 2)`. -/
theorem claim_C1_edge_invariant_witness : EdgeInvariant c2Graph :=
  claim_C1_edge_invariant c2Graph
    (ReachableArena.addEdge _ 0 2
      (ReachableArena.addNode _ 5 6
        (ReachableArena.addNode _ 3 4
          (ReachableArena.addNode _ 1 2
            (ReachableArena.init 10 10 (by decide) (by decide))))))

/-- C2: on the arena with nodes `A(1,2)`, `B(3,4)`, `C(5,6)` at indices
`0, 1, 2` and the single edge `(0, 2)`: `removeNode(1)` leaves nodes
`[A, C]` with `nodeCount = 2` and the edge rewritten to `(0, 1)`;
`removeNode(0)` instead leaves nodes `[C, B]` with `nodeCount = 2` and
`edgeCount = 0`. -/
theorem claim_C2_removeNode_compaction :
    (c2Graph.nodeCount = 3 ∧ c2Graph.edgeCount = 1 ∧ edgePairs c2Graph = [(0, 2)] ∧
      c2Graph.getNode 0 = some ⟨1, 2⟩ ∧ c2Graph.getNode 1 = some ⟨3, 4⟩ ∧
      c2Graph.getNode 2 = some ⟨5, 6⟩) ∧
    ((c2Graph.removeNode 1).1.nodeCount = 2 ∧
      (c2Graph.removeNode 1).1.getNode 0 = some ⟨1, 2⟩ ∧
      (c2Graph.removeNode 1).1.getNode 1 = some ⟨5, 6⟩ ∧
      (c2Graph.removeNode 1).1.edgeCount = 1 ∧
      edgePairs (c2Graph.removeNode 1).1 = [(0, 1)]) ∧
    ((c2Graph.removeNode 0).1.nodeCount = 2 ∧
      (c2Graph.removeNode 0).1.getNode 0 = some ⟨5, 6⟩ ∧
      (c2Graph.removeNode 0).1.getNode 1 = some ⟨3, 4⟩ ∧
      (c2Graph.removeNode 0).1.edgeCount = 0) := by decide

/-- C3 (code bug): the batch-delete round trip fails to restore the
graph.  On nodes `A(1,2)`, `B(3,4)`, `C(5,6)` with edges `(0,1)` and
`(0,2)` (node 0 has exactly two incident edges), executing
`BatchDeleteCommand([0], [])` through `CommandHistory` and then `undo()`
re-adds the node at the fresh index `2` and rewrites the saved edge
`(0,2)` to `(2,2)`, which `addEdge` rejects as a self-loop: `nodeCount`
is restored to `3`, but `edgeCount` ends at `1` instead of `2`, and the
adjacency between the positions of `A` and `C` is lost. -/
theorem claim_C3_batch_undo_loses_edge :
    c3Graph.nodeCount = 3 ∧ c3Graph.edgeCount = 2 ∧
    edgePairs c3Graph = [(0, 1), (0, 2)] ∧
    c3RoundTrip.nodeCount = 3 ∧ c3RoundTrip.edgeCount = 1 ∧
    edgePairs c3RoundTrip = [(2, 1)] ∧
    c3RoundTrip.getNode 0 = some ⟨5, 6⟩ ∧
    c3RoundTrip.getNode 1 = some ⟨3, 4⟩ ∧
    c3RoundTrip.getNode 2 = some ⟨1, 2⟩ ∧
    ¬ (c3RoundTrip.edgeCount = c3Graph.edgeCount) := by decide

/-- C4: every failing mutation returns its failure indicator and leaves
the arena state (every field, version included) exactly unchanged:
`removeNode`, `updateNode` and `removeEdge` on an index outside the valid
count, and `addEdge` on an out-of-range endpoint, a self-loop, or a
duplicate unordered pair. -/
theorem claim_C4_failure_atomicity :
    (∀ (g : GraphState) (i : Int), i < 0 ∨ (g.nodeCount : Int) ≤ i →
      g.removeNode i = (g, false)) ∧
    (∀ (g : GraphState) (i x y : Int), i < 0 ∨ (g.nodeCount : Int) ≤ i →
      g.updateNode i x y = (g, false)) ∧
    (∀ (g : GraphState) (i : Int), i < 0 ∨ (g.edgeCount : Int) ≤ i →
      g.removeEdge i = (g, false)) ∧
    (∀ (g : GraphState) (s t : Int),
      (s < 0 ∨ (g.nodeCount : Int) ≤ s ∨ t < 0 ∨ (g.nodeCount : Int) ≤ t ∨ s = t ∨
        ∃ e ∈ edgePairs g, samePair e (s.toNat, t.toNat)) →
      g.addEdge s t = (g, -1)) := by
  refine ⟨removeNode_out_of_range, updateNode_out_of_range,
    removeEdge_out_of_range, ?_⟩
  intro g s t h
  by_cases h1 : s < 0 ∨ (g.nodeCount : Int) ≤ s
  · exact addEdge_fail g s t (by tauto)
  by_cases h2 : t < 0 ∨ (g.nodeCount : Int) ≤ t
  · exact addEdge_fail g s t (by tauto)
  by_cases h3 : s = t
  · exact addEdge_fail g s t (by tauto)
  have hdup : ∃ e ∈ edgePairs g, samePair e (s.toNat, t.toNat) := by tauto
  push_neg at h1 h2
  have hs : s = ((s.toNat : Nat) : Int) := by omega
  have ht : t = ((t.toNat : Nat) : Int) := by omega
  apply addEdge_fail g s t
  right; right; right; right; right
  rw [hs, ht]
  exact (hasEdge_iff_samePair g s.toNat t.toNat).mpr hdup

/-- Witness for C4, instantiating all four conjuncts on a concrete
arena. -/
theorem claim_C4_failure_atomicity_witness :
    c2Graph.removeNode 7 = (c2Graph, false) ∧
    c2Graph.updateNode (-2) 5 5 = (c2Graph, false) ∧
    c2Graph.removeEdge 3 = (c2Graph, false) ∧
    c2Graph.addEdge 2 0 = (c2Graph, -1) := by
  refine ⟨claim_C4_failure_atomicity.1 c2Graph 7 (by decide),
    claim_C4_failure_atomicity.2.1 c2Graph (-2) 5 5 (by decide),
    claim_C4_failure_atomicity.2.2.1 c2Graph 3 (by decide),
    claim_C4_failure_atomicity.2.2.2 c2Graph 2 0 ?_⟩
  right; right; right; right; right
  exact ⟨(0, 2), by decide, by decide⟩

/-- C5: the version counter increases exactly on successful mutations —
by exactly one for `addNode`, `updateNode`, `addEdge`, `removeEdge` and
`loadFromArrow`, and strictly (by one per cascaded edge removal plus one)
for a successful `removeNode` — is unchanged on failure, and is
monotonically non-decreasing across any sequence of arena operations. -/
theorem claim_C5_version_monotonic :
    (∀ (g : GraphState) (x y : Int), (g.addNode x y).1.version = g.version + 1) ∧
    (∀ (g : GraphState) (i x y : Int),
      ((g.updateNode i x y).2 = true → (g.updateNode i x y).1.version = g.version + 1) ∧
      ((g.updateNode i x y).2 = false → (g.updateNode i x y).1.version = g.version)) ∧
    (∀ (g : GraphState) (i : Int),
      ((g.removeEdge i).2 = true → (g.removeEdge i).1.version = g.version + 1) ∧
      ((g.removeEdge i).2 = false → (g.removeEdge i).1.version = g.version)) ∧
    (∀ (g : GraphState) (s t : Int),
      ((g.addEdge s t).2 ≠ -1 → (g.addEdge s t).1.version = g.version + 1) ∧
      ((g.addEdge s t).2 = -1 → (g.addEdge s t).1.version = g.version)) ∧
    (∀ (g : GraphState) (i : Int),
      ((g.removeNode i).2 = true → g.version < (g.removeNode i).1.version) ∧
      ((g.removeNode i).2 = false → (g.removeNode i).1.version = g.version)) ∧
    (∀ (g : GraphState) (nodes : List (Int × Int)) (edges : List (Nat × Nat)),
      (g.loadFromArrow nodes edges).version = g.version + 1) ∧
    (∀ g g' : GraphState, Relation.ReflTransGen ArenaStep g g' → g.version ≤ g'.version) := by
  refine ⟨addNode_version, updateNode_version, removeEdge_version, addEdge_version,
    removeNode_version, loadFromArrow_version, ?_⟩
  intro g g' h
  induction h with
  | refl => exact Nat.le_refl _
  | tail _ hstep ih => exact Nat.le_trans ih (arenaStep_version_le _ _ hstep)

/-- Witness for C5, instantiating the successful and failing cases on a
concrete arena. -/
theorem claim_C5_version_monotonic_witness :
    (c2Graph.addNode 9 9).1.version = c2Graph.version + 1 ∧
    (c2Graph.updateNode 1 9 9).1.version = c2Graph.version + 1 ∧
    (c2Graph.removeEdge 5).1.version = c2Graph.version ∧
    (c2Graph.addEdge 0 1).1.version = c2Graph.version + 1 ∧
    c2Graph.version < (c2Graph.removeNode 0).1.version ∧
    (c2Graph.loadFromArrow [(1, 1)] []).version = c2Graph.version + 1 :=
  ⟨claim_C5_version_monotonic.1 c2Graph 9 9,
    (claim_C5_version_monotonic.2.1 c2Graph 1 9 9).1 (by decide),
    (claim_C5_version_monotonic.2.2.1 c2Graph 5).2 (by decide),
    (claim_C5_version_monotonic.2.2.2.1 c2Graph 0 1).1 (by decide),
    (claim_C5_version_monotonic.2.2.2.2.1 c2Graph 0).1 (by decide),
    claim_C5_version_monotonic.2.2.2.2.2.1 c2Graph [(1, 1)] []⟩

set_option maxHeartbeats 4000000 in
/-- C6: `findGiantComponent` selects the maximum component size (the
running maximum of `componentSizes`), ties broken by the first-discovered
component (the returned id is the least index attaining the maximum, and
`componentSizes` is ordered by discovery); on two disjoint triangles it
reports 2 components of size 3 each, giant size 3, and the giant id is
the component id of the first-discovered triangle (the component of node
0). -/
theorem claim_C6_giant_component :
    (∀ g : GraphState,
      g.findGiantComponent.giantComponentSize =
        g.findGiantComponent.componentSizes.foldr max 0 ∧
      (∀ j, j < g.findGiantComponent.giantComponentId →
        g.findGiantComponent.componentSizes.getD j 0 <
          g.findGiantComponent.giantComponentSize) ∧
      (g.findGiantComponent.componentSizes ≠ [] →
        g.findGiantComponent.giantComponentId < g.findGiantComponent.componentSizes.length ∧
        g.findGiantComponent.componentSizes.getD g.findGiantComponent.giantComponentId 0 =
          g.findGiantComponent.giantComponentSize)) ∧
    (triGraph.findGiantComponent.numComponents = 2 ∧
      triGraph.findGiantComponent.componentSizes = [3, 3] ∧
      triGraph.findGiantComponent.giantComponentSize = 3 ∧
      triGraph.findGiantComponent.giantComponentId = 0 ∧
      triGraph.findGiantComponent.componentIds 0 = 0 ∧
      triGraph.findGiantComponent.componentIds 3 = 1) := by
  constructor
  · intro g
    obtain ⟨sg1, sg2, sg3⟩ :=
      sgLoop_spec g.computeConnectedComponents.componentSizes 0 0 0
    refine ⟨?_, ?_, ?_⟩
    · show (sgLoop g.computeConnectedComponents.componentSizes 0 0 0).2 =
        g.computeConnectedComponents.componentSizes.foldr max 0
      exact sg1
    · show ∀ j, j < (sgLoop g.computeConnectedComponents.componentSizes 0 0 0).1 →
        g.computeConnectedComponents.componentSizes.getD j 0 <
          (sgLoop g.computeConnectedComponents.componentSizes 0 0 0).2
      by_cases hall : ∀ s ∈ g.computeConnectedComponents.componentSizes, s ≤ 0
      · rw [sg2 hall]
        intro j hj
        exact absurd hj (Nat.not_lt_zero j)
      · push_neg at hall
        obtain ⟨j, hj1, hj2, hj3, hj4, hj5⟩ := sg3 (by simpa using hall)
        rw [hj2, Nat.zero_add]
        intro j2 hj2lt
        exact hj4 j2 hj2lt
    · show g.computeConnectedComponents.componentSizes ≠ [] →
        (sgLoop g.computeConnectedComponents.componentSizes 0 0 0).1 <
          g.computeConnectedComponents.componentSizes.length ∧
        g.computeConnectedComponents.componentSizes.getD
          (sgLoop g.computeConnectedComponents.componentSizes 0 0 0).1 0 =
          (sgLoop g.computeConnectedComponents.componentSizes 0 0 0).2
      intro hne
      by_cases hall : ∀ s ∈ g.computeConnectedComponents.componentSizes, s ≤ 0
      · rw [sg2 hall]
        constructor
        · exact List.length_pos.mpr hne
        · match hmatch : g.computeConnectedComponents.componentSizes, hne with
          | c :: rest, _ =>
            have hc : c ≤ 0 := by
              rw [hmatch] at hall
              exact hall c (List.mem_cons_self c rest)
            show (c :: rest).getD 0 0 = 0
            rw [List.getD_cons_zero]
            omega
      · push_neg at hall
        obtain ⟨j, hj1, hj2, hj3, hj4, hj5⟩ := sg3 (by simpa using hall)
        rw [hj2, Nat.zero_add]
        exact ⟨hj1, hj3⟩
  · decide

set_option maxHeartbeats 4000000 in
/-- Witness for C6 discharging the inner hypotheses at the concrete
two-triangle arena. -/
theorem claim_C6_giant_component_witness :
    triGraph.findGiantComponent.giantComponentSize =
      triGraph.findGiantComponent.componentSizes.foldr max 0 ∧
    (triGraph.findGiantComponent.giantComponentId <
      triGraph.findGiantComponent.componentSizes.length ∧
      triGraph.findGiantComponent.componentSizes.getD
        triGraph.findGiantComponent.giantComponentId 0 =
        triGraph.findGiantComponent.giantComponentSize) :=
  ⟨(claim_C6_giant_component.1 triGraph).1,
    (claim_C6_giant_component.1 triGraph).2.2 (by decide)⟩

/-- C7 (amended: `k ≥ 1`): starting from an empty arena with node
capacity `k ≥ 1` and any edge capacity, after exactly `k + 1` `addNode`
calls the node capacity is exactly `2k`, the calls returned the
consecutive indices `0 … k`, and `getNode` returns every inserted `(x, y)`
pair unchanged.  (At the degenerate `k = 0` the final conjunct fails —
see the counterexample.) -/
theorem claim_C7_capacity_growth (k e : Nat) (hk : 0 < k) (xs : List (Int × Int))
    (hlen : xs.length = k + 1) :
    (insertSeq (mkGraphState k e) xs).1.nodeCapacity = 2 * k ∧
    (insertSeq (mkGraphState k e) xs).2 = List.range (k + 1) ∧
    ∀ i, i < k + 1 →
      (insertSeq (mkGraphState k e) xs).1.getNode (i : Int) =
        some ⟨(xs.getD i (0, 0)).1, (xs.getD i (0, 0)).2⟩ := by
  have hne : xs ≠ [] := by
    intro h
    rw [h] at hlen
    simp at hlen
  have hxs : xs.dropLast ++ [xs.getLast hne] = xs := List.dropLast_concat_getLast hne
  have hylen : xs.dropLast.length = k := by
    rw [List.length_dropLast, hlen]
    omega
  obtain ⟨ic, icnt, iidx, is1, is2, is3, is4, iold, inew⟩ :=
    insertSeq_no_resize xs.dropLast (mkGraphState k e)
      (by rw [hylen]; show 0 + k ≤ k; omega) rfl rfl rfl rfl
  rw [← hxs, insertSeq_append]
  set ys := xs.dropLast with hys
  set z := xs.getLast hne with hz
  set g1 := (insertSeq (mkGraphState k e) ys).1 with hg1
  have hcap1 : g1.nodeCapacity = k := ic
  have hcnt1 : g1.nodeCount = k := by
    have h0 : (mkGraphState k e).nodeCount = 0 := rfl
    rw [icnt, h0, hylen] at *
    omega
  have hresize : g1.nodeCapacity ≤ g1.nodeCount := by
    rw [hcap1, hcnt1]
  rw [addNode_eq_resize g1 z.1 z.2 hresize]
  have hsz1 : g1.nodeX.size = k := is1
  have hsz2 : g1.nodeY.size = k := is2
  refine ⟨?_, ?_, ?_⟩
  · show g1.nodeCapacity * 2 = 2 * k
    rw [hcap1]
    omega
  · show (insertSeq (mkGraphState k e) ys).2 ++ [g1.nodeCount] = List.range (k + 1)
    have hidx : (insertSeq (mkGraphState k e) ys).2 = List.range' 0 k := by
      have h0 : (mkGraphState k e).nodeCount = 0 := rfl
      rw [iidx, hylen, h0]
    rw [hidx, hcnt1, List.range_succ, List.range_eq_range']
  · intro i hi
    have hcond : ¬ ((i : Int) < 0 ∨ ((g1.nodeCount + 1 : Nat) : Int) ≤ (i : Int)) := by
      push_neg
      refine ⟨Int.natCast_nonneg i, ?_⟩
      have : i < g1.nodeCount + 1 := by omega
      exact_mod_cast this
    show getNode _ (i : Int) = _
    unfold getNode
    rw [if_neg hcond]
    rw [Int.toNat_natCast]
    by_cases hik : i = k
    · subst hik
      have hwx : g1.nodeCount < (g1.nodeX.grow 0 (g1.nodeCapacity * 2)).size := by
        rw [JArr.size_grow, hcap1, hcnt1]
        omega
      have hwy : g1.nodeCount < (g1.nodeY.grow 0 (g1.nodeCapacity * 2)).size := by
        rw [JArr.size_grow, hcap1, hcnt1]
        omega
      have hix : i = g1.nodeCount := by omega
      rw [hix]
      show some (⟨((g1.nodeX.grow 0 (g1.nodeCapacity * 2)).set g1.nodeCount z.1).get
          g1.nodeCount 0,
        ((g1.nodeY.grow 0 (g1.nodeCapacity * 2)).set g1.nodeCount z.2).get
          g1.nodeCount 0⟩ : NodeData) = _
      rw [JArr.get_set_self _ _ _ _ hwx, JArr.get_set_self _ _ _ _ hwy]
      have hgetd : (ys ++ [z]).getD g1.nodeCount (0, 0) = z := by
        rw [List.getD_append_right ys [z] (0, 0) g1.nodeCount (by rw [hylen, hcnt1])]
        rw [hylen, hcnt1, Nat.sub_self, List.getD_cons_zero]
      rw [hgetd]
    · have hilt : i < k := by omega
      have hine : i ≠ g1.nodeCount := by omega
      show some (⟨((g1.nodeX.grow 0 (g1.nodeCapacity * 2)).set g1.nodeCount z.1).get i 0,
        ((g1.nodeY.grow 0 (g1.nodeCapacity * 2)).set g1.nodeCount z.2).get i 0⟩ : NodeData) = _
      rw [JArr.get_set_ne _ _ _ _ _ hine, JArr.get_set_ne _ _ _ _ _ hine]
      rw [JArr.get_grow _ _ _ _ (by rw [hcap1]; omega),
        JArr.get_grow _ _ _ _ (by rw [hcap1]; omega)]
      obtain ⟨nx, ny⟩ := inew i (by rw [hylen]; exact hilt)
      have h0 : (mkGraphState k e).nodeCount = 0 := rfl
      rw [h0, Nat.zero_add] at nx ny
      rw [nx, ny]
      have hgetd : (ys ++ [z]).getD i (0, 0) = ys.getD i (0, 0) :=
        List.getD_append ys [z] (0, 0) i (by rw [hylen]; exact hilt)
      rw [hgetd]

/-- Counterexample to C7 as stated: at the degenerate capacity `k = 0`,
the single `addNode(1, 7)` triggers a resize to capacity `0`, the write
is silently dropped (as for any out-of-range JS typed-array write), and
`getNode(0)` does not return the inserted pair. -/
theorem claim_C7_counterexample :
    (insertSeq (mkGraphState 0 0) [(1, 7)]).1.nodeCapacity = 2 * 0 ∧
    (insertSeq (mkGraphState 0 0) [(1, 7)]).2 = List.range (0 + 1) ∧
    (insertSeq (mkGraphState 0 0) [(1, 7)]).1.getNode 0 = some ⟨0, 0⟩ ∧
    ¬ ((insertSeq (mkGraphState 0 0) [(1, 7)]).1.getNode 0 = some ⟨1, 7⟩) := by decide

/-- Witness for C7 at `k = 1`, inserting two nodes into a capacity-1
arena. -/
theorem claim_C7_capacity_growth_witness :
    (insertSeq (mkGraphState 1 1) [(5, 6), (7, 8)]).1.nodeCapacity = 2 * 1 ∧
    (insertSeq (mkGraphState 1 1) [(5, 6), (7, 8)]).2 = List.range (1 + 1) ∧
    ∀ i : Nat, i < 1 + 1 →
      (insertSeq (mkGraphState 1 1) [(5, 6), (7, 8)]).1.getNode (i : Int) =
        some ⟨([((5 : Int), (6 : Int)), (7, 8)].getD i (0, 0)).1,
          ([((5 : Int), (6 : Int)), (7, 8)].getD i (0, 0)).2⟩ :=
  claim_C7_capacity_growth 1 1 (by decide) [(5, 6), (7, 8)] (by decide)

namespace GraphState

/-- C8: `findNearestNode` returns `-1` on an empty arena; with a finite
`maxDist = m` it returns `-1` when every node's squared distance is at
least `m * m`; whenever some node is within the (possibly infinite)
bound, it returns the index of a node minimising the squared distance to
the query point; and concretely on nodes `(0,0)`, `(10,0)`, `(3,0)` the
query `(2,0)` with unbounded `maxDist` returns index `2`, the node at
`(3,0)`. -/
theorem claim_C8_find_nearest (g : GraphState) (x y : Int) (md : Option Int) :
    (g.nodeCount = 0 → g.findNearestNode x y md = -1) ∧
    (∀ m, md = some m →
      (∀ j, j < g.nodeCount → ¬ (g.nodeDistSq x y j < m * m)) →
      g.findNearestNode x y md = -1) ∧
    ((∃ j, j < g.nodeCount ∧
        fnnLt (g.nodeDistSq x y j) (md.map fun m => m * m) = true) →
      ∃ j, j < g.nodeCount ∧ g.findNearestNode x y md = (j : Int) ∧
        ∀ i, i < g.nodeCount → g.nodeDistSq x y j ≤ g.nodeDistSq x y i) ∧
    fnnGraph.findNearestNode 2 0 none = 2 := by
  have hres : g.findNearestNode x y md =
      (fnnLoop g x y g.nodeCount (-1, md.map fun m => m * m)).1 := rfl
  refine ⟨?_, ?_, ?_, by decide⟩
  · intro hc
    rw [hres, hc]
    rfl
  · intro m hm hfar
    rw [hres, hm]
    show (fnnLoop g x y g.nodeCount (-1, some (m * m))).1 = -1
    rcases fnnLoop_spec g x y (some (m * m)) g.nodeCount with
      ⟨hacc, _⟩ | ⟨jb, hjb, _, hlt, _⟩
    · rw [hacc]
    · simp only [fnnLt, decide_eq_true_eq] at hlt
      exact absurd hlt (hfar jb hjb)
  · rintro ⟨j0, hj0, hlt0⟩
    rcases fnnLoop_spec g x y (md.map fun m => m * m) g.nodeCount with
      ⟨_, hall⟩ | ⟨jb, hjb, hacc, _, hmin⟩
    · rw [hall j0 hj0] at hlt0
      exact absurd hlt0 (by simp)
    · exact ⟨jb, hjb, by rw [hres, hacc], hmin⟩

end GraphState

open GraphState in
/-- Witness for C8: the empty-arena branch on a fresh arena, the
out-of-range branch querying `(100, 100)` with `maxDist = 1`, and the
minimiser branch for the concrete query `(2, 0)`. -/
theorem claim_C8_find_nearest_witness :
    (mkGraphState 2 2).findNearestNode 5 5 none = -1 ∧
    fnnGraph.findNearestNode 100 100 (some 1) = -1 ∧
    (∃ j, j < fnnGraph.nodeCount ∧ fnnGraph.findNearestNode 2 0 none = (j : Int) ∧
      ∀ i, i < fnnGraph.nodeCount →
        fnnGraph.nodeDistSq 2 0 j ≤ fnnGraph.nodeDistSq 2 0 i) :=
  ⟨(claim_C8_find_nearest (mkGraphState 2 2) 5 5 none).1 rfl,
    (claim_C8_find_nearest fnnGraph 100 100 (some 1)).2.1 1 rfl (by decide),
    (claim_C8_find_nearest fnnGraph 2 0 none).2.2.1 ⟨2, by decide, by decide⟩⟩

namespace GraphState

/-- C9: removing the last occupied node slot is a pure frame operation:
the call succeeds, all four node arrays are byte-for-byte untouched (so
every surviving node keeps its exact position and velocity and no index
is remapped), the surviving edge store is exactly the non-incident edges
with both endpoints unchanged, and only `nodeCount`, `edgeCount` and
`version` (which strictly increases) change, with capacities
preserved. -/
theorem claim_C9_remove_last_frame (g : GraphState) (hpos : 0 < g.nodeCount)
    (hs : g.edgeCount ≤ g.edgeSource.size) (ht : g.edgeCount ≤ g.edgeTarget.size) :
    (g.removeNode ((g.nodeCount - 1 : Nat) : Int)).2 = true ∧
    (g.removeNode ((g.nodeCount - 1 : Nat) : Int)).1.nodeX = g.nodeX ∧
    (g.removeNode ((g.nodeCount - 1 : Nat) : Int)).1.nodeY = g.nodeY ∧
    (g.removeNode ((g.nodeCount - 1 : Nat) : Int)).1.nodeVX = g.nodeVX ∧
    (g.removeNode ((g.nodeCount - 1 : Nat) : Int)).1.nodeVY = g.nodeVY ∧
    (g.removeNode ((g.nodeCount - 1 : Nat) : Int)).1.nodeCount = g.nodeCount - 1 ∧
    (g.removeNode ((g.nodeCount - 1 : Nat) : Int)).1.nodeCapacity = g.nodeCapacity ∧
    (g.removeNode ((g.nodeCount - 1 : Nat) : Int)).1.edgeCapacity = g.edgeCapacity ∧
    (edgePairs (g.removeNode ((g.nodeCount - 1 : Nat) : Int)).1).Perm
      ((edgePairs g).filter fun e => !(decide (incidentTo (g.nodeCount - 1) e))) ∧
    (g.removeNode ((g.nodeCount - 1 : Nat) : Int)).1.edgeCount =
      ((edgePairs g).filter fun e => !(decide (incidentTo (g.nodeCount - 1) e))).length ∧
    g.version < (g.removeNode ((g.nodeCount - 1 : Nat) : Int)).1.version := by
  obtain ⟨h1, h2, h3, h4, _, _, _, _, _, _, h11, h12, h13, h14⟩ :=
    removeNode_valid_spec g (g.nodeCount - 1) (by omega) hs ht
  obtain ⟨hx, hy, hvx, hvy⟩ := h14 rfl
  have hmap : (((edgePairs g).filter fun e => !(decide (incidentTo (g.nodeCount - 1) e))).map
      fun e => (remapVal (g.nodeCount - 1) (g.nodeCount - 1) e.1,
        remapVal (g.nodeCount - 1) (g.nodeCount - 1) e.2)) =
      ((edgePairs g).filter fun e => !(decide (incidentTo (g.nodeCount - 1) e))) := by
    apply List.map_id''
    intro e
    rw [remapVal_self, remapVal_self]
  exact ⟨h1, hx, hy, hvx, hvy, h2, h3, h4, hmap ▸ h13, h12, h11⟩

end GraphState

open GraphState in
/-- Witness for C9 on `c2Graph` (three nodes and the single edge
`(0, 2)`): removing the last slot, index 2. -/
theorem claim_C9_remove_last_frame_witness :
    (c2Graph.removeNode ((c2Graph.nodeCount - 1 : Nat) : Int)).2 = true ∧
    (c2Graph.removeNode ((c2Graph.nodeCount - 1 : Nat) : Int)).1.nodeX = c2Graph.nodeX ∧
    (c2Graph.removeNode ((c2Graph.nodeCount - 1 : Nat) : Int)).1.nodeY = c2Graph.nodeY ∧
    (c2Graph.removeNode ((c2Graph.nodeCount - 1 : Nat) : Int)).1.nodeVX = c2Graph.nodeVX ∧
    (c2Graph.removeNode ((c2Graph.nodeCount - 1 : Nat) : Int)).1.nodeVY = c2Graph.nodeVY ∧
    (c2Graph.removeNode ((c2Graph.nodeCount - 1 : Nat) : Int)).1.nodeCount =
      c2Graph.nodeCount - 1 ∧
    (c2Graph.removeNode ((c2Graph.nodeCount - 1 : Nat) : Int)).1.nodeCapacity =
      c2Graph.nodeCapacity ∧
    (c2Graph.removeNode ((c2Graph.nodeCount - 1 : Nat) : Int)).1.edgeCapacity =
      c2Graph.edgeCapacity ∧
    (edgePairs (c2Graph.removeNode ((c2Graph.nodeCount - 1 : Nat) : Int)).1).Perm
      ((edgePairs c2Graph).filter fun e =>
        !(decide (incidentTo (c2Graph.nodeCount - 1) e))) ∧
    (c2Graph.removeNode ((c2Graph.nodeCount - 1 : Nat) : Int)).1.edgeCount =
      ((edgePairs c2Graph).filter fun e =>
        !(decide (incidentTo (c2Graph.nodeCount - 1) e))).length ∧
    c2Graph.version < (c2Graph.removeNode ((c2Graph.nodeCount - 1 : Nat) : Int)).1.version :=
  claim_C9_remove_last_frame c2Graph (by decide) (by decide) (by decide)

namespace GraphState

/-- C10: on an arena with `nodeCount = 0` (and a well-formed edge store,
which forces `edgeCount = 0`), `computeStatistics` returns the all-zero
record; in particular both guarded divisions by `nodeCount` take their
`else 0` branch, so no NaN-like value is produced. -/
theorem claim_C10_empty_stats (g : GraphState) (hc : g.nodeCount = 0)
    (hinv : EdgeInvariant g) :
    g.computeStatistics = ⟨0, 0, 0, 0, 0, 0, 0⟩ := by
  have hec : g.edgeCount = 0 := by
    by_contra h
    have h0 : 0 < g.edgeCount := Nat.pos_of_ne_zero h
    have := (hinv.1 0 h0).2.1
    omega
  unfold computeStatistics findGiantComponent computeConnectedComponents
  rw [hc, hec]
  rfl

end GraphState

open GraphState in
/-- Witness for C10 on a freshly constructed arena with capacities 3/3,
whose edge invariant follows from constructor well-formedness. -/
theorem claim_C10_empty_stats_witness :
    (mkGraphState 3 3).computeStatistics = ⟨0, 0, 0, 0, 0, 0, 0⟩ :=
  claim_C10_empty_stats (mkGraphState 3 3) rfl
    (wf_mkGraphState 3 3 (by decide) (by decide)).2
